import Mathlib

/-!
Verification development for the `metaspn_store` filesystem event store
(`src/metaspn_store/store.py`).

The embedding is shallow:

* A Python `datetime` is modelled by `PyDatetime`: a wall-clock reading in
  seconds (proleptic count from the Unix epoch) together with an optional
  fixed UTC offset in seconds (`none` models a naive datetime).
  `ensure_utc` mirrors `_ensure_utc`.
* Envelope schemas (`SignalEnvelope`, `EmissionEnvelope`, `EntityRef`) are
  external collaborators of the store; they are modelled as records with the
  attributes the store reads, and their `to_dict`/`from_dict` JSON round-trip
  is modelled as the identity (a partition line stores the envelope value).
* The store directories are modelled by `FileSystemStore`: each partition
  directory is an association list from the UTC day number (the
  `YYYY-MM-DD` file name) to the list of lines of that `.jsonl` file, kept
  sorted by day, matching `sorted(base_dir.glob("*.jsonl"))` enumeration.
* Fallible operations return `Except StoreError`; operations that mutate
  the store also return the updated store.
* Python's stdlib `datetime.isoformat`/`datetime.fromisoformat` pair
  (external to the repository) is modelled by an exact decimal rendering of
  the wall seconds followed by the UTC offset suffix; the repository's own
  suffix manipulation (`.replace("+00:00", "Z")` on write, stripping a
  trailing `Z` on read) is modelled faithfully on top of it.
-/

set_option linter.unusedVariables false

/-- Model of a Python `datetime`: wall-clock seconds plus optional UTC offset
in seconds (`none` = naive). -/
structure PyDatetime where
  wall : Int
  tz : Option Int
deriving DecidableEq, Repr

/-- Model of `_ensure_utc`: a naive datetime is reinterpreted as UTC, an
aware one is converted to the same instant in UTC. -/
def ensure_utc (d : PyDatetime) : PyDatetime :=
  match d.tz with
  | none => { wall := d.wall, tz := some 0 }
  | some o => { wall := d.wall - o, tz := some 0 }

/-- Canonical UTC seconds of a datetime (the value every comparison in the
store is performed on, after `_ensure_utc`). -/
def utcSec (d : PyDatetime) : Int := (ensure_utc d).wall

/-- UTC day number of a datetime: models `.date()` of the canonicalized
value, i.e. the `YYYY-MM-DD` partition key. -/
def dayOf (d : PyDatetime) : Int := Int.fdiv (utcSec d) 86400

/-- Model of `datetime(1970, 1, 1, tzinfo=timezone.utc)`. -/
def epochDt : PyDatetime := { wall := 0, tz := some 0 }

/-- Model of `EntityRef` (external schema): component-wise equality. -/
structure EntityRef where
  ref_type : String
  platform : Option String
  value : String
deriving DecidableEq, Repr

/-- Scalar payload values the store inspects. `pbool` is numeric for
`isinstance(x, (int, float))` because Python `bool` is an `int` subtype. -/
inductive PyVal where
  | pint : Int → PyVal
  | pfloat : Rat → PyVal
  | pbool : Bool → PyVal
  | pstr : String → PyVal
  | pnone : PyVal
deriving DecidableEq, Repr

/-- An envelope payload: either a mapping (`dict`) or some non-mapping
value. -/
inductive Payload where
  | pdict : List (String × PyVal) → Payload
  | pother : Payload
deriving DecidableEq, Repr

/-- Model of `SignalEnvelope` restricted to the attributes the store reads. -/
structure SignalEnvelope where
  signal_id : String
  timestamp : PyDatetime
  source : String
  payload_type : String
  payload : Payload
  entity_refs : List EntityRef
  schema_version : String
deriving DecidableEq, Repr

/-- Model of `EmissionEnvelope` restricted to the attributes the store
reads. -/
structure EmissionEnvelope where
  emission_id : String
  timestamp : PyDatetime
  emission_type : String
  payload : Payload
  caused_by : String
  entity_refs : List EntityRef
  schema_version : String
deriving DecidableEq, Repr

/-- First-seen deduplication keyed by `key`, generalized over an initial
seen set: models the `dict.fromkeys` / "local seen set" idiom. -/
def dedupByAux {α : Type} (key : α → String) (seen : List String) : List α → List α
  | [] => []
  | x :: rest =>
    if key x ∈ seen then dedupByAux key seen rest
    else x :: dedupByAux key (key x :: seen) rest

/-- First-seen deduplication keyed by `key`. -/
def dedupBy {α : Type} (key : α → String) (l : List α) : List α := dedupByAux key [] l

/-- Model of `ReplayCheckpoint` (fields after `__post_init__`). -/
structure ReplayCheckpoint where
  last_timestamp : PyDatetime
  seen_ids_at_timestamp : List String
  schema_version : String
deriving DecidableEq, Repr

/-- Model of the `ReplayCheckpoint` constructor: `__post_init__`
canonicalizes the timestamp and first-seen-deduplicates the id list. -/
def mkReplayCheckpoint (lt : PyDatetime) (ids : List String) (ver : String) : ReplayCheckpoint :=
  { last_timestamp := ensure_utc lt
    seen_ids_at_timestamp := dedupBy (fun s => s) ids
    schema_version := ver }

/-- Association-list lookup (first binding wins), modelling `dict` lookup
and `list.lookup` on partition maps. -/
def alookup {κ β : Type} [DecidableEq κ] : List (κ × β) → κ → Option β
  | [], _ => none
  | (k, v) :: rest, key => if key = k then some v else alookup rest key

/-- Association-list update (replace first binding or append), modelling
`dict` assignment. -/
def alSet {κ β : Type} [DecidableEq κ] : List (κ × β) → κ → β → List (κ × β)
  | [], key, v => [(key, v)]
  | (k, w) :: rest, key, v =>
    if key = k then (k, v) :: rest else (k, w) :: alSet rest key v

/-- Append one line to the partition file of day `d`, keeping the partition
map sorted by day (the filesystem directory listing is sorted). -/
def addLine {α : Type} : List (Int × List α) → Int → α → List (Int × List α)
  | [], d, x => [(d, [x])]
  | (d0, ls) :: rest, d, x =>
    if d = d0 then (d0, ls ++ [x]) :: rest
    else if d < d0 then (d, [x]) :: (d0, ls) :: rest
    else (d0, ls) :: addLine rest d x

/-- Days of `_iter_days(a, b)`: all day numbers in `[a, b]` ascending. -/
def dayRange (a b : Int) : List Int :=
  (List.range (b + 1 - a).toNat).map (fun (i : Nat) => a + (i : Int))

/-- Model of Python truthiness of an optional list argument:
`set(xs) if xs else None` treats both `None` and `[]` as "no filter". -/
def truthyList (l : Option (List String)) : Option (List String) :=
  match l with
  | none => none
  | some xs => if xs.isEmpty then none else some xs

/-- Errors surfaced by the store: `ValueError` and `DuplicateEventError`
(the latter carries the id field name, the id and the existing partition). -/
inductive StoreError where
  | valueError : String → StoreError
  | duplicateEvent : String → String → Int → StoreError
deriving DecidableEq, Repr

/-- Model of the checkpoint JSON document `{last_timestamp,
seen_ids_at_timestamp, schema_version}` written by `write_checkpoint`. -/
structure CheckpointDoc where
  last_timestamp : String
  seen_ids_at_timestamp : List String
  schema_version : String
deriving DecidableEq, Repr

/-- The store state: partition maps (day number to lines of that day's
`.jsonl` file) for the two directories, the checkpoint directory, and the
two lazily built in-memory dedup indexes (`None` = not yet built). -/
structure FileSystemStore where
  signalParts : List (Int × List SignalEnvelope)
  emissionParts : List (Int × List EmissionEnvelope)
  checkpoints : List (String × CheckpointDoc)
  signalIndex : Option (List (String × Int))
  emissionIndex : Option (List (String × Int))
deriving DecidableEq, Repr

/-- A fresh store, as produced by `FileSystemStore(workspace)`. -/
def emptyStore : FileSystemStore :=
  { signalParts := [], emissionParts := [], checkpoints := []
    signalIndex := none, emissionIndex := none }

/-- Model of `_build_index` for the signals directory: enumerate partitions
in day order, first-seen id wins. -/
def build_signal_index (parts : List (Int × List SignalEnvelope)) : List (String × Int) :=
  parts.foldl
    (fun acc p =>
      p.2.foldl
        (fun acc2 s =>
          if (alookup acc2 s.signal_id).isSome then acc2
          else acc2 ++ [(s.signal_id, p.1)])
        acc)
    []

/-- Model of `_build_index` for the emissions directory. -/
def build_emission_index (parts : List (Int × List EmissionEnvelope)) : List (String × Int) :=
  parts.foldl
    (fun acc p =>
      p.2.foldl
        (fun acc2 e =>
          if (alookup acc2 e.emission_id).isSome then acc2
          else acc2 ++ [(e.emission_id, p.1)])
        acc)
    []

/-- Model of `_get_signal_index`: the cached index if built, otherwise the
index rebuilt from the partition files. -/
def effSignalIndex (st : FileSystemStore) : List (String × Int) :=
  match st.signalIndex with
  | some idx => idx
  | none => build_signal_index st.signalParts

/-- Model of `_get_emission_index`. -/
def effEmissionIndex (st : FileSystemStore) : List (String × Int) :=
  match st.emissionIndex with
  | some idx => idx
  | none => build_emission_index st.emissionParts

/-- Model of `_resolve_duplicate`: no existing binding means "proceed to
write"; otherwise the duplicate policy decides. -/
def resolve_duplicate (existing : Option Int) (on_duplicate : String)
    (id_field : String) (id_value : String) : Except StoreError (Option Int) :=
  match existing with
  | none => .ok none
  | some p =>
    if on_duplicate = "ignore" ∨ on_duplicate = "return_existing" then .ok (some p)
    else if on_duplicate = "raise" then .error (.duplicateEvent id_field id_value p)
    else .error (.valueError ("Unsupported duplicate policy"))

/-- Model of `write_signal`; the partition path is its day number. -/
def write_signal (st : FileSystemStore) (s : SignalEnvelope) (on_duplicate : String) :
    FileSystemStore × Except StoreError Int :=
  if s.signal_id = "" then (st, .error (.valueError ("signal_id is required for stable IDs")))
  else if s.schema_version = "" then (st, .error (.valueError ("schema_version is required")))
  else
    let idx := effSignalIndex st
    let st1 := { st with signalIndex := some idx }
    match resolve_duplicate (alookup idx s.signal_id) on_duplicate "signal_id" s.signal_id with
    | .error e => (st1, .error e)
    | .ok (some p) => (st1, .ok p)
    | .ok none =>
      let d := dayOf s.timestamp
      ({ st1 with
          signalParts := addLine st1.signalParts d s
          signalIndex := some (alSet idx s.signal_id d) },
        .ok d)

/-- Model of `write_emission`. -/
def write_emission (st : FileSystemStore) (e : EmissionEnvelope) (on_duplicate : String) :
    FileSystemStore × Except StoreError Int :=
  if e.emission_id = "" then (st, .error (.valueError ("emission_id is required for stable IDs")))
  else if e.schema_version = "" then (st, .error (.valueError ("schema_version is required")))
  else
    let idx := effEmissionIndex st
    let st1 := { st with emissionIndex := some idx }
    match resolve_duplicate (alookup idx e.emission_id) on_duplicate "emission_id" e.emission_id with
    | .error er => (st1, .error er)
    | .ok (some p) => (st1, .ok p)
    | .ok none =>
      let d := dayOf e.timestamp
      ({ st1 with
          emissionParts := addLine st1.emissionParts d e
          emissionIndex := some (alSet idx e.emission_id d) },
        .ok d)

/-- Lines of the signals partition file for day `d` (`[]` when the file is
missing, which the scanner skips silently). -/
def linesAtSig (parts : List (Int × List SignalEnvelope)) (d : Int) : List SignalEnvelope :=
  (alookup parts d).getD []

/-- Lines of the emissions partition file for day `d`. -/
def linesAtEmi (parts : List (Int × List EmissionEnvelope)) (d : Int) : List EmissionEnvelope :=
  (alookup parts d).getD []

/-- The lines `iter_signals` reads for a canonical interval `[a, b]`
(seconds): every partition of a day in `[a.date, b.date]`, in day order,
file order within a day. -/
def scanCandidatesSig (st : FileSystemStore) (a b : Int) : List SignalEnvelope :=
  (dayRange (Int.fdiv a 86400) (Int.fdiv b 86400)).flatMap (fun d => linesAtSig st.signalParts d)

/-- The lines `iter_emissions` reads for a canonical interval `[a, b]`. -/
def scanCandidatesEmi (st : FileSystemStore) (a b : Int) : List EmissionEnvelope :=
  (dayRange (Int.fdiv a 86400) (Int.fdiv b 86400)).flatMap (fun d => linesAtEmi st.emissionParts d)

/-- Source filter test of `iter_signals` (`signal.source not in source_set`
skips). -/
def srcOk (srcSet : Option (List String)) (s : SignalEnvelope) : Bool :=
  match srcSet with
  | some set => decide (s.source ∈ set)
  | none => true

/-- Entity filter test of `iter_signals` (`entity_ref not in
signal.entity_refs` skips). -/
def entOkSig (eref : Option EntityRef) (s : SignalEnvelope) : Bool :=
  match eref with
  | some r => decide (r ∈ s.entity_refs)
  | none => true

/-- Emission-type filter test of `iter_emissions`. -/
def typOk (typSet : Option (List String)) (e : EmissionEnvelope) : Bool :=
  match typSet with
  | some set => decide (e.emission_type ∈ set)
  | none => true

/-- Entity filter test of `iter_emissions`. -/
def entOkEmi (eref : Option EntityRef) (e : EmissionEnvelope) : Bool :=
  match eref with
  | some r => decide (r ∈ e.entity_refs)
  | none => true

/-- Loop body of `iter_signals`: walk the candidate lines with the local
`seen_signal_ids` set, mirroring the order of checks in the source. -/
def iter_signals_aux (a b : Int) (srcSet : Option (List String)) (eref : Option EntityRef) :
    List SignalEnvelope → List String → List SignalEnvelope
  | [], _ => []
  | s :: rest, seen =>
    if utcSec s.timestamp < a ∨ b < utcSec s.timestamp then
      iter_signals_aux a b srcSet eref rest seen
    else if s.signal_id ∈ seen then
      iter_signals_aux a b srcSet eref rest seen
    else if srcOk srcSet s = false then
      iter_signals_aux a b srcSet eref rest seen
    else if entOkSig eref s = false then
      iter_signals_aux a b srcSet eref rest seen
    else
      s :: iter_signals_aux a b srcSet eref rest (s.signal_id :: seen)

/-- Loop body of `iter_emissions`. -/
def iter_emissions_aux (a b : Int) (typSet : Option (List String)) (eref : Option EntityRef) :
    List EmissionEnvelope → List String → List EmissionEnvelope
  | [], _ => []
  | e :: rest, seen =>
    if utcSec e.timestamp < a ∨ b < utcSec e.timestamp then
      iter_emissions_aux a b typSet eref rest seen
    else if e.emission_id ∈ seen then
      iter_emissions_aux a b typSet eref rest seen
    else if typOk typSet e = false then
      iter_emissions_aux a b typSet eref rest seen
    else if entOkEmi eref e = false then
      iter_emissions_aux a b typSet eref rest seen
    else
      e :: iter_emissions_aux a b typSet eref rest (e.emission_id :: seen)

/-- Model of `iter_signals` (the stream, materialized as a list). -/
def iter_signals (st : FileSystemStore) (start finish : PyDatetime)
    (entity_ref : Option EntityRef) (sources : Option (List String)) :
    Except StoreError (List SignalEnvelope) :=
  let a := utcSec start
  let b := utcSec finish
  if b < a then .error (.valueError ("end must be greater than or equal to start"))
  else .ok (iter_signals_aux a b (truthyList sources) entity_ref (scanCandidatesSig st a b) [])

/-- Model of `iter_emissions`. -/
def iter_emissions (st : FileSystemStore) (start finish : PyDatetime)
    (entity_ref : Option EntityRef) (emission_types : Option (List String)) :
    Except StoreError (List EmissionEnvelope) :=
  let a := utcSec start
  let b := utcSec finish
  if b < a then .error (.valueError ("end must be greater than or equal to start"))
  else .ok (iter_emissions_aux a b (truthyList emission_types) entity_ref (scanCandidatesEmi st a b) [])

/-- Model of `iter_signals_from_checkpoint`. -/
def iter_signals_from_checkpoint (st : FileSystemStore) (finish : PyDatetime)
    (checkpoint : Option ReplayCheckpoint) (start : Option PyDatetime)
    (entity_ref : Option EntityRef) (sources : Option (List String)) :
    Except StoreError (List SignalEnvelope) :=
  let effStart0 : PyDatetime :=
    match start with
    | some s => ensure_utc s
    | none => epochDt
  let cpInfo : Option (PyDatetime × List String) :=
    match checkpoint with
    | some cp => some (ensure_utc cp.last_timestamp, cp.seen_ids_at_timestamp)
    | none => none
  let effStart : PyDatetime :=
    match cpInfo with
    | some (cpTs, _) => if effStart0.wall < cpTs.wall then cpTs else effStart0
    | none => effStart0
  match iter_signals st effStart finish entity_ref sources with
  | .error e => .error e
  | .ok l =>
    .ok (l.filter (fun s =>
      match cpInfo with
      | some (cpTs, seen) => !(decide (utcSec s.timestamp = cpTs.wall) && decide (s.signal_id ∈ seen))
      | none => true))

/-- Loop body of `build_signal_checkpoint`, carrying `last_ts` and
`ids_at_last_ts`. -/
def build_checkpoint_aux : Option PyDatetime → List String → List SignalEnvelope →
    Except StoreError (Option ReplayCheckpoint)
  | last, ids, [] =>
    match last with
    | none => .ok none
    | some lt => .ok (some (mkReplayCheckpoint lt ids "0.1"))
  | last, ids, s :: rest =>
    let ts := ensure_utc s.timestamp
    match last with
    | none => build_checkpoint_aux (some ts) [s.signal_id] rest
    | some lt =>
      if lt.wall < ts.wall then build_checkpoint_aux (some ts) [s.signal_id] rest
      else if ts.wall < lt.wall then
        .error (.valueError ("processed_signals must be in non-decreasing timestamp order"))
      else if s.signal_id ∈ ids then build_checkpoint_aux (some lt) ids rest
      else build_checkpoint_aux (some lt) (ids ++ [s.signal_id]) rest

/-- Model of `build_signal_checkpoint`. -/
def build_signal_checkpoint (processed_signals : List SignalEnvelope) :
    Except StoreError (Option ReplayCheckpoint) :=
  build_checkpoint_aux none [] processed_signals

/-- Decimal rendering of a natural number, digit characters big-endian
(stand-in for stdlib integer formatting inside `isoformat`). -/
def natRender (n : Nat) : String :=
  if n = 0 then "0"
  else String.mk (((Nat.digits 10 n).reverse).map (fun d => Char.ofNat (48 + d)))

/-- Decimal rendering of an integer. -/
def intRender (z : Int) : String :=
  if z < 0 then "-" ++ natRender z.natAbs else natRender z.natAbs

/-- Value of a decimal digit character. -/
def digitVal (c : Char) : Option Nat :=
  if 48 ≤ c.toNat ∧ c.toNat ≤ 57 then some (c.toNat - 48) else none

/-- Parse a nonempty big-endian decimal digit string. -/
def natParse (cs : List Char) : Option Nat :=
  if cs.isEmpty then none
  else
    cs.foldl
      (fun acc c =>
        match acc, digitVal c with
        | some a, some d => some (a * 10 + d)
        | _, _ => none)
      (some 0)

/-- Parse an optionally minus-signed decimal string. -/
def intParse (s : String) : Option Int :=
  match s.data with
  | [] => none
  | c :: rest =>
    if c = '-' then (natParse rest).map (fun (n : Nat) => -(n : Int))
    else (natParse s.data).map (fun (n : Nat) => (n : Int))

/-- Model of stdlib `datetime.isoformat` on our datetime model: the wall
reading rendered in decimal, followed by the offset suffix for aware
values. Only the UTC offset arises in the store (after `_ensure_utc`). -/
def pyIsoformat (d : PyDatetime) : String :=
  match d.tz with
  | some o => if o = 0 then intRender d.wall ++ "+00:00" else intRender d.wall ++ "+?"
  | none => intRender d.wall

/-- Replace a trailing `+00:00` by `Z`: the effect of
`.replace("+00:00", "Z")` on an `isoformat` output, where the only
occurrence of the pattern is the suffix. -/
def zSuffix (l : List Char) : List Char :=
  if 6 ≤ l.length ∧ l.drop (l.length - 6) = ("+00:00").data then
    l.take (l.length - 6) ++ [('Z' : Char)]
  else l

/-- Rewrite a trailing `Z` to `+00:00`: the `from_dict` / `_parse_datetime`
preprocessing (`text[:-1] + "+00:00"` when `text.endswith("Z")`). -/
def zStrip (l : List Char) : List Char :=
  if l.getLast? = some ('Z' : Char) then l.dropLast ++ ("+00:00").data else l

/-- Model of stdlib `datetime.fromisoformat` on the strings the store
produces: a decimal wall reading with an optional `+00:00` offset suffix. -/
def pyFromIsoformat (s : String) : Option PyDatetime :=
  let l := s.data
  if 6 ≤ l.length ∧ l.drop (l.length - 6) = ("+00:00").data then
    (intParse (String.mk (l.take (l.length - 6)))).map (fun w => { wall := w, tz := some 0 })
  else
    (intParse s).map (fun w => { wall := w, tz := none })

/-- Model of `ReplayCheckpoint.to_dict`. -/
def checkpointToDict (cp : ReplayCheckpoint) : CheckpointDoc :=
  { last_timestamp := String.mk (zSuffix (pyIsoformat cp.last_timestamp).data)
    seen_ids_at_timestamp := cp.seen_ids_at_timestamp
    schema_version := cp.schema_version }

/-- Model of `ReplayCheckpoint.from_dict`; `none` models the
`ValueError` `datetime.fromisoformat` raises on a malformed string. -/
def checkpointFromDict (doc : CheckpointDoc) : Option ReplayCheckpoint :=
  match pyFromIsoformat (String.mk (zStrip doc.last_timestamp.data)) with
  | some dt => some (mkReplayCheckpoint dt doc.seen_ids_at_timestamp doc.schema_version)
  | none => none

/-- Model of `write_checkpoint` (the path is the checkpoint name). -/
def write_checkpoint (st : FileSystemStore) (name : String) (cp : ReplayCheckpoint) :
    FileSystemStore × String :=
  ({ st with checkpoints := alSet st.checkpoints name (checkpointToDict cp) }, name)

/-- Model of `read_checkpoint`: absence for a missing file, parse failure
surfaces as a `ValueError`. -/
def read_checkpoint (st : FileSystemStore) (name : String) :
    Except StoreError (Option ReplayCheckpoint) :=
  match alookup st.checkpoints name with
  | none => .ok none
  | some doc =>
    match checkpointFromDict doc with
    | some cp => .ok (some cp)
    | none => .error (.valueError ("Invalid isoformat string"))

/-- Code-point lexicographic strict comparison of character lists: the
order Python uses on `str`. -/
def listLtB : List Char → List Char → Bool
  | [], [] => false
  | [], _ :: _ => true
  | _ :: _, [] => false
  | c :: cs, d :: ds =>
    if c.toNat < d.toNat then true
    else if d.toNat < c.toNat then false
    else listLtB cs ds

/-- Python `str` strict less-than. -/
def strLtB (a b : String) : Bool := listLtB a.data b.data

/-- Python `str` less-or-equal, as the negation of the reverse strict
comparison. -/
def strLeB (a b : String) : Bool := !(strLtB b a)

/-- Stable insertion step of Python `list.sort`: `x` is placed before the
first element `y` with `le x y`, so equal elements keep their original
relative order. -/
def pyInsert {α : Type} (le : α → α → Bool) (x : α) : List α → List α
  | [] => [x]
  | y :: ys => if le x y then x :: y :: ys else y :: pyInsert le x ys

/-- Stable sort (model of Python `list.sort` with a key): for a total `le`,
produces the unique stable `le`-sorted permutation. -/
def pySort {α : Type} (le : α → α → Bool) : List α → List α
  | [] => []
  | x :: rest => pyInsert le x (pySort le rest)

/-- Ascending comparison on the `(timestamp, id)` sort key. -/
def tsIdLe (k1 k2 : Int × String) : Bool :=
  decide (k1.1 < k2.1) || (decide (k1.1 = k2.1) && strLeB k1.2 k2.2)

/-- Descending, stability-preserving comparison on the
`(score, timestamp, id)` ranking key: `x` may precede `y` iff its key is
not strictly smaller. -/
def rankGe (k1 k2 : Rat × Int × String) : Bool :=
  !(decide (k1.1 < k2.1) ||
    (decide (k1.1 = k2.1) &&
      (decide (k1.2.1 < k2.2.1) || (decide (k1.2.1 = k2.2.1) && strLtB k1.2.2 k2.2.2))))

/-- Insert into a sorted duplicate-free string list; folding this over a
list models Python `sorted(set(...))`. -/
def insertSortedUnique (x : String) : List String → List String
  | [] => [x]
  | y :: ys =>
    if x = y then y :: ys
    else if strLtB x y then x :: y :: ys
    else y :: insertSortedUnique x ys

/-- Model of `sorted(set(l1) | set(l2))`. -/
def sortedUnion (l1 l2 : List String) : List String :=
  (l1 ++ l2).foldr insertSortedUnique []

/-- Constant `DEFAULT_PENDING_OUTCOME_PAYLOAD_TYPES` (membership model of
the frozenset). -/
def DEFAULT_PENDING_OUTCOME_PAYLOAD_TYPES : List String :=
  ["OutcomePending", "EvaluationRequested", "RecommendationAttempted"]

/-- Constant `DEFAULT_SUCCESS_EMISSION_TYPES`. -/
def DEFAULT_SUCCESS_EMISSION_TYPES : List String :=
  ["OutcomeSuccess", "DraftApproved"]

/-- Constant `DEFAULT_FAILURE_EMISSION_TYPES`. -/
def DEFAULT_FAILURE_EMISSION_TYPES : List String :=
  ["OutcomeFailure", "DraftRejected"]

/-- Python `f"{opt}"` of an optional string: `None` prints as `"None"`. -/
def pyStrOpt (o : Option String) : String :=
  match o with
  | some s => s
  | none => "None"

/-- Entity dedup key of `get_top_recommendation_candidates`:
`"ref_type:platform:value"` of the first entity ref, or `"signal:<id>"`
when `entity_refs` is empty. -/
def entityKey (s : SignalEnvelope) : String :=
  match s.entity_refs with
  | r :: _ => r.ref_type ++ ":" ++ pyStrOpt r.platform ++ ":" ++ r.value
  | [] => "signal:" ++ s.signal_id

/-- Python `float()` coercion on values passing
`isinstance(x, (int, float))` (`bool` included as an `int` subtype). -/
def toFloat (v : PyVal) : Option Rat :=
  match v with
  | .pint n => some ((n : Int) : Rat)
  | .pfloat q => some q
  | .pbool b => some (if b then 1 else 0)
  | _ => none

/-- Model of `dict.get(key, default)` on a payload mapping. -/
def pdictGet (entries : List (String × PyVal)) (k : String) (default : PyVal) : PyVal :=
  (alookup entries k).getD default

/-- Payload-type filter test (`payload_type_set is not None and
signal.payload_type not in payload_type_set` skips). -/
def ptOk (ptSet : Option (List String)) (s : SignalEnvelope) : Bool :=
  match ptSet with
  | some set => decide (s.payload_type ∈ set)
  | none => true

/-- Candidate extraction loop of `get_top_recommendation_candidates`:
payload-type filter, mapping check, numeric score check, building the
`(score, timestamp, id, signal)` tuples. -/
def topCandidateTuples (ptSet : Option (List String)) (score_field : String) :
    List SignalEnvelope → List (Rat × Int × String × SignalEnvelope)
  | [] => []
  | s :: rest =>
    if ptOk ptSet s = false then
      topCandidateTuples ptSet score_field rest
    else
      match s.payload with
      | .pother => topCandidateTuples ptSet score_field rest
      | .pdict entries =>
        match toFloat (pdictGet entries score_field (.pfloat 0)) with
        | none => topCandidateTuples ptSet score_field rest
        | some q => (q, utcSec s.timestamp, s.signal_id, s) :: topCandidateTuples ptSet score_field rest

/-- Selection loop of `get_top_recommendation_candidates` for
`unique_by_entity=True`: skip already-seen entity keys, append, break when
`limit` is reached. -/
def selectUniqueAux (limit : Nat) :
    List (Rat × Int × String × SignalEnvelope) → List String → List SignalEnvelope →
    List SignalEnvelope
  | [], _, selected => selected
  | c :: rest, seenKeys, selected =>
    let s := c.2.2.2
    if entityKey s ∈ seenKeys then selectUniqueAux limit rest seenKeys selected
    else
      let selected2 := selected ++ [s]
      if limit ≤ selected2.length then selected2
      else selectUniqueAux limit rest (entityKey s :: seenKeys) selected2

/-- Model of `get_top_recommendation_candidates`. -/
def get_top_recommendation_candidates (st : FileSystemStore) (start finish : PyDatetime)
    (limit : Int) (entity_ref : Option EntityRef) (sources : Option (List String))
    (payload_types : Option (List String)) (score_field : String) (unique_by_entity : Bool) :
    Except StoreError (List SignalEnvelope) :=
  if limit ≤ 0 then .ok []
  else
    match iter_signals st start finish entity_ref sources with
    | .error e => .error e
    | .ok sigs =>
      let candidates := topCandidateTuples (truthyList payload_types) score_field sigs
      let sortedC := pySort (fun c1 c2 => rankGe (c1.1, c1.2.1, c1.2.2.1) (c2.1, c2.2.1, c2.2.2.1)) candidates
      if unique_by_entity = false then .ok ((sortedC.take limit.toNat).map (fun c => c.2.2.2))
      else .ok (selectUniqueAux limit.toNat sortedC [] [])

/-- Effective type set of an optional filter argument:
`set(arg) if arg else set(DEFAULT)`. -/
def effTypes (arg : Option (List String)) (dflt : List String) : List String :=
  match truthyList arg with
  | some l => l
  | none => dflt

/-- Model of `get_unresolved_outcome_signals`. -/
def get_unresolved_outcome_signals (st : FileSystemStore) (start finish : PyDatetime)
    (entity_ref : Option EntityRef) (sources : Option (List String))
    (pending_payload_types success_emission_types failure_emission_types : Option (List String)) :
    Except StoreError (List SignalEnvelope) :=
  let pending_types := effTypes pending_payload_types DEFAULT_PENDING_OUTCOME_PAYLOAD_TYPES
  let success_types := effTypes success_emission_types DEFAULT_SUCCESS_EMISSION_TYPES
  let failure_types := effTypes failure_emission_types DEFAULT_FAILURE_EMISSION_TYPES
  match iter_emissions st start finish entity_ref (some (sortedUnion success_types failure_types)) with
  | .error e => .error e
  | .ok emis =>
    let resolved_caused_by := emis.map (fun e => e.caused_by)
    match iter_signals st start finish entity_ref sources with
    | .error e => .error e
    | .ok sigs =>
      let unresolved := sigs.filter (fun s =>
        decide (s.payload_type ∈ pending_types) && !(decide (s.signal_id ∈ resolved_caused_by)))
      .ok (pySort (fun s1 s2 =>
        tsIdLe (utcSec s1.timestamp, s1.signal_id) (utcSec s2.timestamp, s2.signal_id)) unresolved)

/-- Inclusion test of one scanned signal line: canonical timestamp in the
closed interval, source filter, entity filter. -/
def sigPass (a b : Int) (srcSet : Option (List String)) (eref : Option EntityRef)
    (s : SignalEnvelope) : Bool :=
  decide (a ≤ utcSec s.timestamp) && decide (utcSec s.timestamp ≤ b) &&
    srcOk srcSet s && entOkSig eref s

/-- Inclusion test of one scanned emission line. -/
def emiPass (a b : Int) (typSet : Option (List String)) (eref : Option EntityRef)
    (e : EmissionEnvelope) : Bool :=
  decide (a ≤ utcSec e.timestamp) && decide (utcSec e.timestamp ≤ b) &&
    typOk typSet e && entOkEmi eref e

theorem iter_signals_aux_eq (a b : Int) (ss : Option (List String)) (er : Option EntityRef) :
    ∀ (l : List SignalEnvelope) (seen : List String),
    iter_signals_aux a b ss er l seen =
      dedupByAux (fun s => s.signal_id) seen (l.filter (sigPass a b ss er)) := by
  intro l
  induction l with
  | nil => intro seen; rfl
  | cons s rest ih =>
    intro seen
    by_cases h1 : utcSec s.timestamp < a ∨ b < utcSec s.timestamp
    · have hpass : sigPass a b ss er s = false := by
        simp only [sigPass, Bool.and_eq_false_iff, decide_eq_false_iff_not, not_le]
        rcases h1 with h | h
        · exact Or.inl (Or.inl (Or.inl h))
        · exact Or.inl (Or.inl (Or.inr h))
      simp only [iter_signals_aux]
      rw [if_pos h1, List.filter_cons_of_neg (by simp [hpass]), ih]
    · have hr1 : a ≤ utcSec s.timestamp := by omega
      have hr2 : utcSec s.timestamp ≤ b := by omega
      by_cases h2 : s.signal_id ∈ seen
      · simp only [iter_signals_aux]
        rw [if_neg h1, if_pos h2, ih]
        cases hp : sigPass a b ss er s with
        | true =>
          rw [List.filter_cons_of_pos hp]
          simp only [dedupByAux]
          rw [if_pos h2]
        | false =>
          rw [List.filter_cons_of_neg (by simp [hp])]
      · cases h3 : srcOk ss s with
        | false =>
          have hpass : sigPass a b ss er s = false := by simp [sigPass, h3]
          simp only [iter_signals_aux]
          rw [if_neg h1, if_neg h2, if_pos (show srcOk ss s = false from h3),
            List.filter_cons_of_neg (by simp [hpass]), ih]
        | true =>
          cases h4 : entOkSig er s with
          | false =>
            have hpass : sigPass a b ss er s = false := by simp [sigPass, h4]
            simp only [iter_signals_aux]
            rw [if_neg h1, if_neg h2, if_neg (by simp [h3]),
              if_pos (show entOkSig er s = false from h4),
              List.filter_cons_of_neg (by simp [hpass]), ih]
          | true =>
            have hpass : sigPass a b ss er s = true := by
              simp only [sigPass, Bool.and_eq_true, decide_eq_true_eq]
              exact ⟨⟨⟨hr1, hr2⟩, h3⟩, h4⟩
            simp only [iter_signals_aux]
            rw [if_neg h1, if_neg h2, if_neg (by simp [h3]), if_neg (by simp [h4]),
              List.filter_cons_of_pos hpass, ih]
            simp only [dedupByAux]
            rw [if_neg h2]

theorem iter_emissions_aux_eq (a b : Int) (ts : Option (List String)) (er : Option EntityRef) :
    ∀ (l : List EmissionEnvelope) (seen : List String),
    iter_emissions_aux a b ts er l seen =
      dedupByAux (fun e => e.emission_id) seen (l.filter (emiPass a b ts er)) := by
  intro l
  induction l with
  | nil => intro seen; rfl
  | cons e rest ih =>
    intro seen
    by_cases h1 : utcSec e.timestamp < a ∨ b < utcSec e.timestamp
    · have hpass : emiPass a b ts er e = false := by
        simp only [emiPass, Bool.and_eq_false_iff, decide_eq_false_iff_not, not_le]
        rcases h1 with h | h
        · exact Or.inl (Or.inl (Or.inl h))
        · exact Or.inl (Or.inl (Or.inr h))
      simp only [iter_emissions_aux]
      rw [if_pos h1, List.filter_cons_of_neg (by simp [hpass]), ih]
    · have hr1 : a ≤ utcSec e.timestamp := by omega
      have hr2 : utcSec e.timestamp ≤ b := by omega
      by_cases h2 : e.emission_id ∈ seen
      · simp only [iter_emissions_aux]
        rw [if_neg h1, if_pos h2, ih]
        cases hp : emiPass a b ts er e with
        | true =>
          rw [List.filter_cons_of_pos hp]
          simp only [dedupByAux]
          rw [if_pos h2]
        | false =>
          rw [List.filter_cons_of_neg (by simp [hp])]
      · cases h3 : typOk ts e with
        | false =>
          have hpass : emiPass a b ts er e = false := by simp [emiPass, h3]
          simp only [iter_emissions_aux]
          rw [if_neg h1, if_neg h2, if_pos (show typOk ts e = false from h3),
            List.filter_cons_of_neg (by simp [hpass]), ih]
        | true =>
          cases h4 : entOkEmi er e with
          | false =>
            have hpass : emiPass a b ts er e = false := by simp [emiPass, h4]
            simp only [iter_emissions_aux]
            rw [if_neg h1, if_neg h2, if_neg (by simp [h3]),
              if_pos (show entOkEmi er e = false from h4),
              List.filter_cons_of_neg (by simp [hpass]), ih]
          | true =>
            have hpass : emiPass a b ts er e = true := by
              simp only [emiPass, Bool.and_eq_true, decide_eq_true_eq]
              exact ⟨⟨⟨hr1, hr2⟩, h3⟩, h4⟩
            simp only [iter_emissions_aux]
            rw [if_neg h1, if_neg h2, if_neg (by simp [h3]), if_neg (by simp [h4]),
              List.filter_cons_of_pos hpass, ih]
            simp only [dedupByAux]
            rw [if_neg h2]

theorem mem_dedupByAux {α : Type} (key : α → String) :
    ∀ (l : List α) (seen : List String) (x : α),
    x ∈ dedupByAux key seen l ↔
      key x ∉ seen ∧ l.find? (fun t => decide (key t = key x)) = some x := by
  intro l
  induction l with
  | nil => intro seen x; simp [dedupByAux]
  | cons t rest ih =>
    intro seen x
    by_cases hk : key t = key x
    · have hfp : List.find? (fun t => decide (key t = key x)) (t :: rest) = some t :=
        List.find?_cons_of_pos _ (by simp [hk])
      rw [hfp]
      by_cases hseen : key t ∈ seen
      · simp only [dedupByAux, if_pos hseen]
        constructor
        · intro hx
          exact absurd (hk ▸ hseen) ((ih seen x).mp hx).1
        · intro hh
          exact absurd (hk ▸ hseen) hh.1
      · simp only [dedupByAux, if_neg hseen, List.mem_cons]
        constructor
        · intro hx
          rcases hx with rfl | hx
          · exact ⟨hk ▸ hseen, rfl⟩
          · rcases (ih _ x).mp hx with ⟨hns, _⟩
            exact absurd (List.mem_cons_self _ _) (fun hm => hns (hk ▸ hm))
        · intro ⟨hns, hf⟩
          exact Or.inl (by injection hf with h; exact h.symm)
    · have hfn : List.find? (fun t => decide (key t = key x)) (t :: rest) =
          List.find? (fun t => decide (key t = key x)) rest :=
        List.find?_cons_of_neg _ (by simp [hk])
      rw [hfn]
      by_cases hseen : key t ∈ seen
      · simp only [dedupByAux, if_pos hseen]
        exact ih seen x
      · simp only [dedupByAux, if_neg hseen, List.mem_cons]
        constructor
        · intro hx
          rcases hx with rfl | hx
          · exact absurd rfl hk
          · rcases (ih _ x).mp hx with ⟨hns, hf⟩
            exact ⟨fun hm => hns (List.mem_cons_of_mem _ hm), hf⟩
        · intro ⟨hns, hf⟩
          refine Or.inr ((ih _ x).mpr ⟨?_, hf⟩)
          intro hm
          rcases List.mem_cons.mp hm with h | h
          · exact hk h.symm
          · exact hns h

theorem dedupByAux_subset {α : Type} (key : α → String) :
    ∀ (l : List α) (seen : List String) (x : α), x ∈ dedupByAux key seen l → x ∈ l := by
  intro l
  induction l with
  | nil => intro seen x h; simp [dedupByAux] at h
  | cons t rest ih =>
    intro seen x h
    by_cases hs : key t ∈ seen
    · simp only [dedupByAux, if_pos hs] at h
      exact List.mem_cons_of_mem _ (ih _ _ h)
    · simp only [dedupByAux, if_neg hs, List.mem_cons] at h
      rcases h with rfl | h
      · exact List.mem_cons_self _ _
      · exact List.mem_cons_of_mem _ (ih _ _ h)

theorem dedupByAux_key_not_seen {α : Type} (key : α → String) :
    ∀ (l : List α) (seen : List String) (x : α), x ∈ dedupByAux key seen l → key x ∉ seen := by
  intro l seen x h
  exact ((mem_dedupByAux key l seen x).mp h).1

theorem countP_dedupByAux {α : Type} (key : α → String) (k : String) :
    ∀ (l : List α) (seen : List String),
    (dedupByAux key seen l).countP (fun t => decide (key t = k)) =
      if k ∉ seen ∧ k ∈ l.map key then 1 else 0 := by
  intro l
  induction l with
  | nil => intro seen; simp [dedupByAux]
  | cons t rest ih =>
    intro seen
    by_cases hs : key t ∈ seen
    · simp only [dedupByAux, if_pos hs, ih, List.map_cons, List.mem_cons]
      by_cases hk : key t = k
      · subst hk
        simp [hs]
      · have hk2 : ¬(k = key t) := fun h => hk h.symm
        simp [hk2]
    · simp only [dedupByAux, if_neg hs, List.countP_cons, ih, List.map_cons, List.mem_cons]
      by_cases hk : key t = k
      · subst hk
        simp [hs]
      · have hk2 : ¬(k = key t) := fun h => hk h.symm
        simp [hk, hk2]

theorem dedupByAux_of_nodup {α : Type} (key : α → String) :
    ∀ (l : List α) (seen : List String), (l.map key).Nodup →
    (∀ x ∈ l, key x ∉ seen) → dedupByAux key seen l = l := by
  intro l
  induction l with
  | nil => intro seen _ _; rfl
  | cons t rest ih =>
    intro seen hnd hns
    simp only [List.map_cons, List.nodup_cons] at hnd
    rw [dedupByAux, if_neg (hns t (List.mem_cons_self _ _)), ih _ hnd.2]
    intro x hx
    simp only [List.mem_cons, not_or]
    refine ⟨fun hkx => hnd.1 ?_, hns x (List.mem_cons_of_mem _ hx)⟩
    exact hkx ▸ List.mem_map_of_mem key hx

theorem dedupBy_of_nodup {α : Type} (key : α → String) (l : List α)
    (hnd : (l.map key).Nodup) : dedupBy key l = l :=
  dedupByAux_of_nodup key l [] hnd (fun x _ => List.not_mem_nil _)

theorem nodup_keys_dedupByAux {α : Type} (key : α → String) :
    ∀ (l : List α) (seen : List String), ((dedupByAux key seen l).map key).Nodup := by
  intro l
  induction l with
  | nil => intro seen; simp [dedupByAux]
  | cons t rest ih =>
    intro seen
    by_cases hs : key t ∈ seen
    · simp only [dedupByAux, if_pos hs]; exact ih seen
    · simp only [dedupByAux, if_neg hs, List.map_cons, List.nodup_cons]
      refine ⟨fun hm => ?_, ih _⟩
      rcases List.mem_map.mp hm with ⟨x, hx, hkx⟩
      exact dedupByAux_key_not_seen key rest _ x hx (hkx ▸ List.mem_cons_self _ _)

theorem dedupBy_idem {α : Type} (key : α → String) (l : List α) :
    dedupBy key (dedupBy key l) = dedupBy key l :=
  dedupBy_of_nodup key _ (nodup_keys_dedupByAux key l [])

theorem mem_dedup_of_append_mem (l1 l2 : List String) (a : String) (ha : a ∈ l1) :
    dedupBy (fun x => x) (l1 ++ a :: l2) = dedupBy (fun x => x) (l1 ++ l2) := by
  have haux : ∀ (l1 : List String) (seen : List String) (l2 : List String) (a : String),
      a ∈ l1 ∨ a ∈ seen →
      dedupByAux (fun x => x) seen (l1 ++ a :: l2) = dedupByAux (fun x => x) seen (l1 ++ l2) := by
    intro l1
    induction l1 with
    | nil =>
      intro seen l2 a h
      rcases h with h | h
      · exact absurd h (List.not_mem_nil a)
      · simp only [List.nil_append, dedupByAux, if_pos h]
    | cons t rest ih =>
      intro seen l2 a h
      simp only [List.cons_append, dedupByAux]
      by_cases hs : t ∈ seen
      · rw [if_pos hs, if_pos hs]
        refine ih seen l2 a ?_
        rcases h with h | h
        · rcases List.mem_cons.mp h with rfl | h2
          · exact Or.inr hs
          · exact Or.inl h2
        · exact Or.inr h
      · rw [if_neg hs, if_neg hs]
        refine congrArg (fun z => t :: z) (ih (t :: seen) l2 a ?_)
        rcases h with h | h
        · rcases List.mem_cons.mp h with rfl | h2
          · exact Or.inr (List.mem_cons_self _ _)
          · exact Or.inl h2
        · exact Or.inr (List.mem_cons_of_mem _ h)
  exact haux l1 [] l2 a (Or.inl ha)

theorem fdiv_day_mono (x y : Int) (h : x ≤ y) : Int.fdiv x 86400 ≤ Int.fdiv y 86400 := by
  rw [Int.fdiv_eq_ediv _ (by norm_num), Int.fdiv_eq_ediv _ (by norm_num)]
  exact Int.ediv_le_ediv (by norm_num) h

theorem lt_of_day_lt (x y : Int) (h : Int.fdiv x 86400 < Int.fdiv y 86400) : x < y := by
  by_contra hc
  exact absurd (fdiv_day_mono y x (by omega)) (by omega)

theorem mem_dayRange (a b d : Int) : d ∈ dayRange a b ↔ a ≤ d ∧ d ≤ b := by
  simp only [dayRange, List.mem_map, List.mem_range]
  constructor
  · intro ⟨i, hi, hd⟩
    omega
  · intro ⟨h1, h2⟩
    refine ⟨(d - a).toNat, by omega, by omega⟩

theorem dayRange_split (a c b : Int) (h1 : a ≤ c) (h2 : c ≤ b + 1) :
    dayRange a b = dayRange a (c - 1) ++ dayRange c b := by
  unfold dayRange
  have hn : (b + 1 - a).toNat = (c - 1 + 1 - a).toNat + (b + 1 - c).toNat := by omega
  rw [hn, List.range_add, List.map_append, List.map_map]
  congr 1
  refine List.map_congr_left ?_
  intro i hi
  simp only [Function.comp_apply]
  omega

/-- Partition invariant for the signals directory: every line of the file
named for day `d` has canonical UTC date `d`. -/
def sigPartitionOk (st : FileSystemStore) : Prop :=
  ∀ p ∈ st.signalParts, ∀ s ∈ p.2, dayOf s.timestamp = p.1

/-- Partition invariant for the emissions directory. -/
def emiPartitionOk (st : FileSystemStore) : Prop :=
  ∀ p ∈ st.emissionParts, ∀ e ∈ p.2, dayOf e.timestamp = p.1

theorem alookup_mem {κ β : Type} [DecidableEq κ] :
    ∀ (l : List (κ × β)) (k : κ) (v : β), alookup l k = some v → (k, v) ∈ l := by
  intro l
  induction l with
  | nil => intro k v h; simp [alookup] at h
  | cons p rest ih =>
    intro k v h
    rw [alookup] at h
    by_cases hk : k = p.1
    · rw [if_pos hk] at h
      injection h with h
      subst h; subst hk
      exact List.mem_cons_self _ _
    · rw [if_neg hk] at h
      exact List.mem_cons_of_mem _ (ih k v h)

theorem mem_linesAtSig (parts : List (Int × List SignalEnvelope)) (d : Int)
    (s : SignalEnvelope) (h : s ∈ linesAtSig parts d) :
    ∃ ls, alookup parts d = some ls ∧ s ∈ ls := by
  unfold linesAtSig at h
  cases hl : alookup parts d with
  | none => rw [hl] at h; simp at h
  | some ls => rw [hl] at h; exact ⟨ls, rfl, h⟩

theorem mem_linesAtEmi (parts : List (Int × List EmissionEnvelope)) (d : Int)
    (e : EmissionEnvelope) (h : e ∈ linesAtEmi parts d) :
    ∃ ls, alookup parts d = some ls ∧ e ∈ ls := by
  unfold linesAtEmi at h
  cases hl : alookup parts d with
  | none => rw [hl] at h; simp at h
  | some ls => rw [hl] at h; exact ⟨ls, rfl, h⟩

theorem dayOf_of_mem_linesAtSig (st : FileSystemStore) (pok : sigPartitionOk st)
    (d : Int) (s : SignalEnvelope) (h : s ∈ linesAtSig st.signalParts d) :
    dayOf s.timestamp = d := by
  rcases mem_linesAtSig _ _ _ h with ⟨ls, hl, hs⟩
  exact pok (d, ls) (alookup_mem _ _ _ hl) s hs

theorem filter_scanCandidatesSig_ext (st : FileSystemStore) (pok : sigPartitionOk st)
    (a0 a1 b : Int) (h01 : a0 ≤ a1) (h1b : a1 ≤ b) (P : SignalEnvelope → Bool)
    (hP : ∀ s, P s = true → a1 ≤ utcSec s.timestamp) :
    (scanCandidatesSig st a0 b).filter P = (scanCandidatesSig st a1 b).filter P := by
  unfold scanCandidatesSig
  rw [dayRange_split (Int.fdiv a0 86400) (Int.fdiv a1 86400) (Int.fdiv b 86400)
    (fdiv_day_mono _ _ h01) (by have := fdiv_day_mono a1 b h1b; omega)]
  rw [List.flatMap_append, List.filter_append]
  have hnil : ((dayRange (Int.fdiv a0 86400) (Int.fdiv a1 86400 - 1)).flatMap
      (fun d => linesAtSig st.signalParts d)).filter P = [] := by
    rw [List.filter_eq_nil_iff]
    intro s hs
    rcases List.mem_flatMap.mp hs with ⟨d, hd, hsd⟩
    have hday : dayOf s.timestamp = d := dayOf_of_mem_linesAtSig st pok d s hsd
    have hdlt : d ≤ Int.fdiv a1 86400 - 1 := ((mem_dayRange _ _ _).mp hd).2
    intro hPs
    have : a1 ≤ utcSec s.timestamp := hP s hPs
    have : Int.fdiv a1 86400 ≤ Int.fdiv (utcSec s.timestamp) 86400 := fdiv_day_mono _ _ this
    unfold dayOf at hday
    omega
  rw [hnil, List.nil_append]

theorem iter_signals_ok (st : FileSystemStore) (start finish : PyDatetime)
    (eref : Option EntityRef) (sources : Option (List String))
    (h : utcSec start ≤ utcSec finish) :
    iter_signals st start finish eref sources =
      .ok (dedupBy (fun s => s.signal_id)
        ((scanCandidatesSig st (utcSec start) (utcSec finish)).filter
          (sigPass (utcSec start) (utcSec finish) (truthyList sources) eref))) := by
  unfold iter_signals
  rw [if_neg (by omega), iter_signals_aux_eq]
  rfl

theorem iter_emissions_ok (st : FileSystemStore) (start finish : PyDatetime)
    (eref : Option EntityRef) (types : Option (List String))
    (h : utcSec start ≤ utcSec finish) :
    iter_emissions st start finish eref types =
      .ok (dedupBy (fun e => e.emission_id)
        ((scanCandidatesEmi st (utcSec start) (utcSec finish)).filter
          (emiPass (utcSec start) (utcSec finish) (truthyList types) eref))) := by
  unfold iter_emissions
  rw [if_neg (by omega), iter_emissions_aux_eq]
  rfl

theorem scanCandidatesSig_suffix (st : FileSystemStore) (a0 a1 b : Int)
    (h01 : a0 ≤ a1) (h1b : a1 ≤ b) :
    ∃ front, scanCandidatesSig st a0 b = front ++ scanCandidatesSig st a1 b := by
  unfold scanCandidatesSig
  rw [dayRange_split (Int.fdiv a0 86400) (Int.fdiv a1 86400) (Int.fdiv b 86400)
    (fdiv_day_mono _ _ h01) (by have := fdiv_day_mono a1 b h1b; omega)]
  exact ⟨_, List.flatMap_append _ _ _⟩

theorem nodup_scan_suffix (st : FileSystemStore) (a0 a1 b : Int)
    (h01 : a0 ≤ a1) (h1b : a1 ≤ b)
    (hnd : ((scanCandidatesSig st a0 b).map (fun s => s.signal_id)).Nodup) :
    ((scanCandidatesSig st a1 b).map (fun s => s.signal_id)).Nodup := by
  rcases scanCandidatesSig_suffix st a0 a1 b h01 h1b with ⟨front, heq⟩
  rw [heq, List.map_append] at hnd
  exact hnd.of_append_right

theorem mem_pyInsert {α : Type} (le : α → α → Bool) (x y : α) :
    ∀ (l : List α), y ∈ pyInsert le x l ↔ y = x ∨ y ∈ l := by
  intro l
  induction l with
  | nil => simp [pyInsert]
  | cons t rest ih =>
    rw [pyInsert]
    by_cases h : le x t = true
    · rw [if_pos h]
      simp [List.mem_cons]
    · rw [if_neg h]
      simp only [List.mem_cons, ih]
      tauto

theorem mem_pySort {α : Type} (le : α → α → Bool) (y : α) :
    ∀ (l : List α), y ∈ pySort le l ↔ y ∈ l := by
  intro l
  induction l with
  | nil => simp [pySort]
  | cons t rest ih =>
    rw [pySort, mem_pyInsert]
    simp only [List.mem_cons, ih]

theorem pairwise_pyInsert {α : Type} (le : α → α → Bool)
    (htot : ∀ a b, le a b = true ∨ le b a = true)
    (htrans : ∀ a b c, le a b = true → le b c = true → le a c = true) (x : α) :
    ∀ (l : List α), l.Pairwise (fun a b => le a b = true) →
    (pyInsert le x l).Pairwise (fun a b => le a b = true) := by
  intro l
  induction l with
  | nil => intro _; simp [pyInsert]
  | cons t rest ih =>
    intro hp
    rcases List.pairwise_cons.mp hp with ⟨ht, hrest⟩
    rw [pyInsert]
    by_cases h : le x t = true
    · rw [if_pos h]
      refine List.pairwise_cons.mpr ⟨?_, hp⟩
      intro z hz
      rcases List.mem_cons.mp hz with rfl | hz2
      · exact h
      · exact htrans x t z h (ht z hz2)
    · rw [if_neg h]
      refine List.pairwise_cons.mpr ⟨?_, ih hrest⟩
      intro z hz
      rcases (mem_pyInsert le x z rest).mp hz with heq | hz2
      · rw [heq]
        rcases htot x t with h2 | h2
        · exact absurd h2 h
        · exact h2
      · exact ht z hz2

theorem pairwise_pySort {α : Type} (le : α → α → Bool)
    (htot : ∀ a b, le a b = true ∨ le b a = true)
    (htrans : ∀ a b c, le a b = true → le b c = true → le a c = true) :
    ∀ (l : List α), (pySort le l).Pairwise (fun a b => le a b = true) := by
  intro l
  induction l with
  | nil => simp [pySort]
  | cons t rest ih => exact pairwise_pyInsert le htot htrans t _ ih

theorem map_pyInsert {α β : Type} (le : β → β → Bool) (le2 : α → α → Bool) (f : α → β)
    (hcomp : ∀ a b, le2 a b = le (f a) (f b)) (x : α) :
    ∀ (l : List α), (pyInsert le2 x l).map f = pyInsert le (f x) (l.map f) := by
  intro l
  induction l with
  | nil => simp [pyInsert]
  | cons t rest ih =>
    rw [pyInsert, List.map_cons, pyInsert, ← hcomp]
    by_cases h : le2 x t = true
    · rw [if_pos h, if_pos h, List.map_cons, List.map_cons]
    · rw [if_neg h, if_neg h, List.map_cons, ih]

theorem map_pySort {α β : Type} (le : β → β → Bool) (le2 : α → α → Bool) (f : α → β)
    (hcomp : ∀ a b, le2 a b = le (f a) (f b)) :
    ∀ (l : List α), (pySort le2 l).map f = pySort le (l.map f) := by
  intro l
  induction l with
  | nil => simp [pySort]
  | cons t rest ih =>
    rw [pySort, List.map_cons, pySort, map_pyInsert le le2 f hcomp, ih]

/-- Fixture signal used by concrete witnesses. -/
def sigA : SignalEnvelope :=
  { signal_id := "s-1", timestamp := { wall := 3600, tz := some 0 }, source := "ingestor.a"
    payload_type := "OutcomePending", payload := .pdict [("score", .pfloat 1)]
    entity_refs := [], schema_version := "0.1" }

/-- Fixture emission used by concrete witnesses. -/
def emiA : EmissionEnvelope :=
  { emission_id := "e-1", timestamp := { wall := 7200, tz := some 0 }
    emission_type := "OutcomeSuccess", payload := .pother, caused_by := "s-1"
    entity_refs := [], schema_version := "0.1" }

/-- Fixture store holding `sigA` and `emiA` in the epoch-day partitions. -/
def storeA : FileSystemStore :=
  { signalParts := [(0, [sigA])], emissionParts := [(0, [emiA])], checkpoints := []
    signalIndex := none, emissionIndex := none }

/-- C2: for every store state and interval with `start <= end` after UTC
canonicalization, `iter_signals` (resp. `iter_emissions`) yields a record
iff it is the first line among the scanned partition lines whose
canonicalized timestamp lies in the closed interval `[start, end]`
(records at exactly `start` and exactly `end` included), whose
source (resp. `emission_type`) passes the filter when one is given, whose
`entity_ref` filter passes when one is given, and that carries its id —
i.e. membership is exactly "passes all filters and its id has not been
yielded before". -/
theorem claim_C2 :
    ∀ (st : FileSystemStore) (start finish : PyDatetime) (eref : Option EntityRef)
      (sources types : Option (List String))
      (sigs : List SignalEnvelope) (emis : List EmissionEnvelope),
    iter_signals st start finish eref sources = .ok sigs →
    iter_emissions st start finish eref types = .ok emis →
    (∀ s, s ∈ sigs ↔
      ((scanCandidatesSig st (utcSec start) (utcSec finish)).filter
          (sigPass (utcSec start) (utcSec finish) (truthyList sources) eref)).find?
          (fun t => decide (t.signal_id = s.signal_id)) = some s) ∧
    (∀ s, sigPass (utcSec start) (utcSec finish) (truthyList sources) eref s = true ↔
      (utcSec start ≤ utcSec s.timestamp ∧ utcSec s.timestamp ≤ utcSec finish ∧
        (∀ set, truthyList sources = some set → s.source ∈ set) ∧
        (∀ r, eref = some r → r ∈ s.entity_refs))) ∧
    (∀ e, e ∈ emis ↔
      ((scanCandidatesEmi st (utcSec start) (utcSec finish)).filter
          (emiPass (utcSec start) (utcSec finish) (truthyList types) eref)).find?
          (fun t => decide (t.emission_id = e.emission_id)) = some e) ∧
    (∀ e, emiPass (utcSec start) (utcSec finish) (truthyList types) eref e = true ↔
      (utcSec start ≤ utcSec e.timestamp ∧ utcSec e.timestamp ≤ utcSec finish ∧
        (∀ set, truthyList types = some set → e.emission_type ∈ set) ∧
        (∀ r, eref = some r → r ∈ e.entity_refs))) := by
  intro st start finish eref sources types sigs emis hs he
  have hab : utcSec start ≤ utcSec finish := by
    by_contra hc
    unfold iter_signals at hs
    rw [if_pos (by omega)] at hs
    exact absurd hs (by simp)
  rw [iter_signals_ok st start finish eref sources hab] at hs
  rw [iter_emissions_ok st start finish eref types hab] at he
  injection hs with hs
  injection he with he
  subst hs
  subst he
  refine ⟨?_, ?_, ?_, ?_⟩
  · intro s
    rw [dedupBy, mem_dedupByAux]
    simp
  · intro s
    simp only [sigPass, Bool.and_eq_true, decide_eq_true_eq]
    constructor
    · intro ⟨⟨⟨h1, h2⟩, h3⟩, h4⟩
      refine ⟨h1, h2, ?_, ?_⟩
      · intro set hset
        rw [hset] at h3
        simp only [srcOk, decide_eq_true_eq] at h3
        exact h3
      · intro r hr
        rw [hr] at h4
        simp only [entOkSig, decide_eq_true_eq] at h4
        exact h4
    · intro ⟨h1, h2, h3, h4⟩
      refine ⟨⟨⟨h1, h2⟩, ?_⟩, ?_⟩
      · cases hset : truthyList sources with
        | none => rfl
        | some set =>
          simp only [srcOk]
          exact decide_eq_true (h3 set hset)
      · cases hr : eref with
        | none => rfl
        | some r =>
          simp only [entOkSig]
          exact decide_eq_true (h4 r hr)
  · intro e
    rw [dedupBy, mem_dedupByAux]
    simp
  · intro e
    simp only [emiPass, Bool.and_eq_true, decide_eq_true_eq]
    constructor
    · intro ⟨⟨⟨h1, h2⟩, h3⟩, h4⟩
      refine ⟨h1, h2, ?_, ?_⟩
      · intro set hset
        rw [hset] at h3
        simp only [typOk, decide_eq_true_eq] at h3
        exact h3
      · intro r hr
        rw [hr] at h4
        simp only [entOkEmi, decide_eq_true_eq] at h4
        exact h4
    · intro ⟨h1, h2, h3, h4⟩
      refine ⟨⟨⟨h1, h2⟩, ?_⟩, ?_⟩
      · cases hset : truthyList types with
        | none => rfl
        | some set =>
          simp only [typOk]
          exact decide_eq_true (h3 set hset)
      · cases hr : eref with
        | none => rfl
        | some r =>
          simp only [entOkEmi]
          exact decide_eq_true (h4 r hr)

/-- Concrete instantiation of C2 on `storeA`. -/
theorem claim_C2_witness :
    sigA ∈ [sigA] ↔
      ((scanCandidatesSig storeA (utcSec { wall := 0, tz := some 0 })
          (utcSec { wall := 86399, tz := some 0 })).filter
        (sigPass (utcSec { wall := 0, tz := some 0 })
          (utcSec { wall := 86399, tz := some 0 }) (truthyList none) none)).find?
        (fun t => decide (t.signal_id = sigA.signal_id)) = some sigA :=
  (claim_C2 storeA { wall := 0, tz := some 0 } { wall := 86399, tz := some 0 }
    none none none [sigA] [emiA] rfl rfl).1 sigA

/-- C10: passing an empty list for a filter parameter behaves exactly like
passing no filter at all (Python truthiness): for `iter_signals.sources`,
`iter_emissions.emission_types`, `get_top_recommendation_candidates.payload_types`,
and the three outcome-type parameters of `get_unresolved_outcome_signals`,
where an empty list (like absence) falls back to the built-in default sets,
as witnessed by the equalities with the explicit default lists. -/
theorem claim_C10 :
    ∀ (st : FileSystemStore) (start finish : PyDatetime) (eref : Option EntityRef)
      (limit : Int) (srcs pend succ fail : Option (List String))
      (score_field : String) (uniq : Bool),
    iter_signals st start finish eref (some []) = iter_signals st start finish eref none ∧
    iter_emissions st start finish eref (some []) = iter_emissions st start finish eref none ∧
    get_top_recommendation_candidates st start finish limit eref srcs (some []) score_field uniq =
      get_top_recommendation_candidates st start finish limit eref srcs none score_field uniq ∧
    get_unresolved_outcome_signals st start finish eref srcs (some []) succ fail =
      get_unresolved_outcome_signals st start finish eref srcs none succ fail ∧
    get_unresolved_outcome_signals st start finish eref srcs pend (some []) fail =
      get_unresolved_outcome_signals st start finish eref srcs pend none fail ∧
    get_unresolved_outcome_signals st start finish eref srcs pend succ (some []) =
      get_unresolved_outcome_signals st start finish eref srcs pend succ none ∧
    get_unresolved_outcome_signals st start finish eref srcs
        (some DEFAULT_PENDING_OUTCOME_PAYLOAD_TYPES) succ fail =
      get_unresolved_outcome_signals st start finish eref srcs none succ fail ∧
    get_unresolved_outcome_signals st start finish eref srcs pend
        (some DEFAULT_SUCCESS_EMISSION_TYPES) fail =
      get_unresolved_outcome_signals st start finish eref srcs pend none fail ∧
    get_unresolved_outcome_signals st start finish eref srcs pend succ
        (some DEFAULT_FAILURE_EMISSION_TYPES) =
      get_unresolved_outcome_signals st start finish eref srcs pend succ none := by
  intro st start finish eref limit srcs pend succ fail score_field uniq
  refine ⟨rfl, rfl, rfl, rfl, rfl, rfl, rfl, rfl, rfl⟩

/-- C6 counterexample: with a fresh id (empty store) an unsupported
duplicate policy does not raise — the write succeeds and returns the
partition day — refuting "raises invalid-input regardless of whether the
envelope's id is already present". -/
theorem claim_C6_counterexample :
    (write_signal emptyStore sigA "bogus").2 = .ok 0 ∧
    (write_emission emptyStore emiA "bogus").2 = .ok 0 := ⟨rfl, rfl⟩

/-- C6 (amended): passing an `on_duplicate` value other than `ignore`,
`return_existing` or `raise` to `write_signal`/`write_emission` raises an
invalid-input error exactly when the envelope's id is already bound in the
dedup index; with a fresh id the policy is never consulted and the write
proceeds. -/
theorem claim_C6 :
    ∀ (st : FileSystemStore) (s : SignalEnvelope) (e : EmissionEnvelope)
      (pol : String) (p q : Int),
    pol ≠ "ignore" → pol ≠ "return_existing" → pol ≠ "raise" →
    (s.signal_id ≠ "" → s.schema_version ≠ "" →
      alookup (effSignalIndex st) s.signal_id = some p →
      (write_signal st s pol).2 = .error (.valueError ("Unsupported duplicate policy"))) ∧
    (e.emission_id ≠ "" → e.schema_version ≠ "" →
      alookup (effEmissionIndex st) e.emission_id = some q →
      (write_emission st e pol).2 = .error (.valueError ("Unsupported duplicate policy"))) ∧
    (s.signal_id ≠ "" → s.schema_version ≠ "" →
      alookup (effSignalIndex st) s.signal_id = none →
      (write_signal st s pol).2 = .ok (dayOf s.timestamp)) := by
  intro st s e pol p q hp1 hp2 hp3
  refine ⟨?_, ?_, ?_⟩
  · intro h1 h2 hidx
    unfold write_signal
    rw [if_neg h1, if_neg h2]
    simp only [hidx, resolve_duplicate]
    rw [if_neg (by tauto), if_neg hp3]
  · intro h1 h2 hidx
    unfold write_emission
    rw [if_neg h1, if_neg h2]
    simp only [hidx, resolve_duplicate]
    rw [if_neg (by tauto), if_neg hp3]
  · intro h1 h2 hidx
    unfold write_signal
    rw [if_neg h1, if_neg h2]
    simp only [hidx, resolve_duplicate]

/-- Concrete instantiation of C6 on `storeA`, whose index binds both ids to
day `0`. -/
theorem claim_C6_witness :
    (write_signal storeA sigA "bogus").2 = .error (.valueError ("Unsupported duplicate policy")) ∧
    (write_emission storeA emiA "bogus").2 = .error (.valueError ("Unsupported duplicate policy")) := by
  have h := claim_C6 storeA sigA emiA "bogus" 0 0
    (by decide) (by decide) (by decide)
  exact ⟨h.1 (by decide) (by decide) rfl, h.2.1 (by decide) (by decide) rfl⟩

/-- C7: when a write's id is already bound in the dedup index, `ignore`
and `return_existing` return the existing partition path without touching
any partition file or index binding; `raise` raises `DuplicateEventError`
carrying the id field, the id and the existing path, with the partitions
likewise untouched. -/
theorem claim_C7 :
    ∀ (st : FileSystemStore) (s : SignalEnvelope) (e : EmissionEnvelope) (p q : Int),
    (s.signal_id ≠ "" → s.schema_version ≠ "" →
      alookup (effSignalIndex st) s.signal_id = some p →
      (∀ pol, pol = "ignore" ∨ pol = "return_existing" →
        write_signal st s pol =
          ({ st with signalIndex := some (effSignalIndex st) }, .ok p)) ∧
      write_signal st s "raise" =
        ({ st with signalIndex := some (effSignalIndex st) },
          .error (.duplicateEvent "signal_id" s.signal_id p))) ∧
    (e.emission_id ≠ "" → e.schema_version ≠ "" →
      alookup (effEmissionIndex st) e.emission_id = some q →
      (∀ pol, pol = "ignore" ∨ pol = "return_existing" →
        write_emission st e pol =
          ({ st with emissionIndex := some (effEmissionIndex st) }, .ok q)) ∧
      write_emission st e "raise" =
        ({ st with emissionIndex := some (effEmissionIndex st) },
          .error (.duplicateEvent "emission_id" e.emission_id q))) ∧
    ({ st with signalIndex := some (effSignalIndex st) }.signalParts = st.signalParts ∧
      { st with signalIndex := some (effSignalIndex st) }.emissionParts = st.emissionParts ∧
      { st with signalIndex := some (effSignalIndex st) }.checkpoints = st.checkpoints ∧
      effSignalIndex { st with signalIndex := some (effSignalIndex st) } = effSignalIndex st ∧
      { st with emissionIndex := some (effEmissionIndex st) }.signalParts = st.signalParts ∧
      { st with emissionIndex := some (effEmissionIndex st) }.emissionParts = st.emissionParts ∧
      { st with emissionIndex := some (effEmissionIndex st) }.checkpoints = st.checkpoints ∧
      effEmissionIndex { st with emissionIndex := some (effEmissionIndex st) } =
        effEmissionIndex st) := by
  intro st s e p q
  refine ⟨?_, ?_, rfl, rfl, rfl, rfl, rfl, rfl, rfl, rfl⟩
  · intro h1 h2 hidx
    constructor
    · intro pol hpol
      unfold write_signal
      rw [if_neg h1, if_neg h2]
      simp only [hidx, resolve_duplicate]
      rw [if_pos hpol]
    · unfold write_signal
      rw [if_neg h1, if_neg h2]
      simp [hidx, resolve_duplicate]
  · intro h1 h2 hidx
    constructor
    · intro pol hpol
      unfold write_emission
      rw [if_neg h1, if_neg h2]
      simp only [hidx, resolve_duplicate]
      rw [if_pos hpol]
    · unfold write_emission
      rw [if_neg h1, if_neg h2]
      simp [hidx, resolve_duplicate]

/-- Concrete instantiation of C7 on `storeA`. -/
theorem claim_C7_witness :
    write_signal storeA sigA "ignore" =
      ({ storeA with signalIndex := some (effSignalIndex storeA) }, .ok 0) ∧
    write_emission storeA emiA "raise" =
      ({ storeA with emissionIndex := some (effEmissionIndex storeA) },
        .error (.duplicateEvent "emission_id" "e-1" 0)) := by
  have h := claim_C7 storeA sigA emiA 0 0
  refine ⟨(h.1 (by decide) (by decide) rfl).1 "ignore" (Or.inl rfl), ?_⟩
  have h2 := (h.2.1 (by decide) (by decide) rfl).2
  exact h2

theorem plusData : ("+00:00").data =
    [('+' : Char), ('0' : Char), ('0' : Char), (':' : Char), ('0' : Char), ('0' : Char)] := rfl

theorem digitVal_char (d : Nat) (h : d < 10) : digitVal (Char.ofNat (48 + d)) = some d := by
  have hv : Nat.isValidChar (48 + d) := Or.inl (by omega)
  have htn : (Char.ofNat (48 + d)).toNat = 48 + d := by
    simp [Char.ofNat, hv, Char.toNat, Char.ofNatAux, UInt32.toNat, BitVec.toNat_ofNatLt]
  unfold digitVal
  rw [htn, if_pos (by omega)]
  congr 1
  omega

theorem natParse_foldl (ds : List Nat) (hd : ∀ d ∈ ds, d < 10) :
    ∀ (a : Nat),
    (ds.map (fun d => Char.ofNat (48 + d))).foldl
      (fun acc c =>
        match acc, digitVal c with
        | some a, some d => some (a * 10 + d)
        | _, _ => none) (some a)
    = some (ds.foldl (fun acc d => acc * 10 + d) a) := by
  induction ds with
  | nil => intro a; rfl
  | cons d rest ih =>
    intro a
    rw [List.map_cons, List.foldl_cons, List.foldl_cons,
      digitVal_char d (hd d (List.mem_cons_self _ _))]
    exact ih (fun x hx => hd x (List.mem_cons_of_mem _ hx)) (a * 10 + d)

theorem foldr_eq_ofDigits (ds : List Nat) :
    ds.foldr (fun d acc => acc * 10 + d) 0 = Nat.ofDigits 10 ds := by
  induction ds with
  | nil => rfl
  | cons d rest ih =>
    rw [List.foldr_cons, ih, Nat.ofDigits_cons]
    ring

theorem natParse_natRender (n : Nat) : natParse (natRender n).data = some n := by
  by_cases h0 : n = 0
  · subst h0
    decide
  · unfold natRender
    rw [if_neg h0]
    show natParse (((Nat.digits 10 n).reverse).map (fun d => Char.ofNat (48 + d))) = some n
    have hne : Nat.digits 10 n ≠ [] := Nat.digits_ne_nil_iff_ne_zero.mpr h0
    have hmapne : ((Nat.digits 10 n).reverse).map (fun d => Char.ofNat (48 + d)) ≠ [] := by
      simp [hne]
    unfold natParse
    rw [if_neg (by simpa [List.isEmpty_iff] using hmapne)]
    rw [natParse_foldl _ (fun d hd => Nat.digits_lt_base (by norm_num)
      (List.mem_reverse.mp hd)) 0]
    congr 1
    rw [List.foldl_reverse, foldr_eq_ofDigits, Nat.ofDigits_digits]

theorem natRender_ne_nil (n : Nat) : (natRender n).data ≠ [] := by
  by_cases h0 : n = 0
  · subst h0; decide
  · unfold natRender
    rw [if_neg h0]
    show ((Nat.digits 10 n).reverse).map (fun d => Char.ofNat (48 + d)) ≠ []
    simp [Nat.digits_ne_nil_iff_ne_zero.mpr h0]

theorem natRender_chars (n : Nat) : ∀ c ∈ (natRender n).data, 48 ≤ c.toNat := by
  intro c hc
  by_cases h0 : n = 0
  · subst h0
    have hc2 : c ∈ [('0' : Char)] := hc
    have hc0 : c = ('0' : Char) := by simpa using hc2
    rw [hc0]
    decide
  · unfold natRender at hc
    rw [if_neg h0] at hc
    have hc2 : c ∈ ((Nat.digits 10 n).reverse).map (fun d => Char.ofNat (48 + d)) := hc
    rcases List.mem_map.mp hc2 with ⟨d, hd, hcd⟩
    have hdlt : d < 10 := Nat.digits_lt_base (by norm_num) (List.mem_reverse.mp hd)
    have hv : Nat.isValidChar (48 + d) := Or.inl (by omega)
    have htn : (Char.ofNat (48 + d)).toNat = 48 + d := by
      simp [Char.ofNat, hv, Char.toNat, Char.ofNatAux, UInt32.toNat, BitVec.toNat_ofNatLt]
    rw [← hcd, htn]
    omega

theorem intParse_intRender (z : Int) : intParse (intRender z) = some z := by
  unfold intRender
  by_cases hz : z < 0
  · rw [if_pos hz]
    unfold intParse
    have hdata : ("-" ++ natRender z.natAbs).data = ('-' : Char) :: (natRender z.natAbs).data := by
      rw [String.data_append]
      rfl
    rw [hdata]
    show (if ('-' : Char) = ('-' : Char) then
        (natParse (natRender z.natAbs).data).map (fun (n : Nat) => -(n : Int))
      else (natParse (('-' : Char) :: (natRender z.natAbs).data)).map
        (fun (n : Nat) => (n : Int))) = some z
    rw [if_pos rfl, natParse_natRender]
    show some (-(z.natAbs : Int)) = some z
    congr 1
    omega
  · rw [if_neg hz]
    unfold intParse
    cases hdata : (natRender z.natAbs).data with
    | nil => exact absurd hdata (natRender_ne_nil _)
    | cons c rest =>
      have hcne : ¬(c = ('-' : Char)) := by
        intro hc
        have h48 : 48 ≤ c.toNat :=
          natRender_chars z.natAbs c (by rw [hdata]; exact List.mem_cons_self _ _)
        rw [hc] at h48
        exact absurd h48 (by decide)
      show (if c = ('-' : Char) then (natParse rest).map (fun (n : Nat) => -(n : Int))
        else (natParse (c :: rest)).map (fun (n : Nat) => (n : Int))) = some z
      rw [if_neg hcne]
      have hp := natParse_natRender z.natAbs
      rw [hdata] at hp
      rw [hp]
      show some ((z.natAbs : Nat) : Int) = some z
      congr 1
      omega

theorem zSuffix_append (w : List Char) :
    zSuffix (w ++ ("+00:00").data) = w ++ [('Z' : Char)] := by
  unfold zSuffix
  have hlen : (w ++ ("+00:00").data).length = w.length + 6 := by
    rw [List.length_append, plusData]
    rfl
  have hd : (w ++ ("+00:00").data).drop ((w ++ ("+00:00").data).length - 6) = ("+00:00").data := by
    rw [hlen]
    have h6 : w.length + 6 - 6 = w.length := by omega
    rw [h6]
    exact List.drop_left w _
  rw [if_pos ⟨by omega, hd⟩, hlen]
  have h6 : w.length + 6 - 6 = w.length := by omega
  rw [h6, List.take_left]

theorem zStrip_concat (w : List Char) :
    zStrip (w ++ [('Z' : Char)]) = w ++ ("+00:00").data := by
  unfold zStrip
  rw [List.getLast?_concat, if_pos rfl, List.dropLast_concat]

theorem pyFromIsoformat_utc (w : List Char) :
    pyFromIsoformat (String.mk (w ++ ("+00:00").data)) =
      (intParse (String.mk w)).map (fun v => { wall := v, tz := some 0 }) := by
  unfold pyFromIsoformat
  have hlen : (w ++ ("+00:00").data).length = w.length + 6 := by
    rw [List.length_append, plusData]
    rfl
  have hd : (w ++ ("+00:00").data).drop ((w ++ ("+00:00").data).length - 6) = ("+00:00").data := by
    rw [hlen]
    have h6 : w.length + 6 - 6 = w.length := by omega
    rw [h6]
    exact List.drop_left w _
  rw [if_pos ⟨by simp [hlen], hd⟩]
  congr 2
  rw [hlen]
  have h6 : w.length + 6 - 6 = w.length := by omega
  rw [h6, List.take_left]

theorem checkpoint_roundtrip (lt : PyDatetime) (ids : List String) (ver : String) :
    checkpointFromDict (checkpointToDict (mkReplayCheckpoint lt ids ver)) =
      some (mkReplayCheckpoint lt ids ver) := by
  have hlast : (mkReplayCheckpoint lt ids ver).last_timestamp = ensure_utc lt := rfl
  have htz : (ensure_utc lt).tz = some 0 := by
    unfold ensure_utc
    cases lt.tz <;> rfl
  have hdt : ensure_utc { wall := (ensure_utc lt).wall, tz := some 0 } = ensure_utc lt := by
    have h1 : ensure_utc { wall := (ensure_utc lt).wall, tz := some 0 } =
        { wall := (ensure_utc lt).wall - 0, tz := some 0 } := rfl
    rw [h1, sub_zero]
    cases hep : ensure_utc lt with
    | mk w t =>
      rw [hep] at htz
      simp only [] at htz
      simp [htz]
  unfold checkpointToDict checkpointFromDict
  rw [hlast]
  have hiso : pyIsoformat (ensure_utc lt) = intRender (ensure_utc lt).wall ++ "+00:00" := by
    unfold pyIsoformat
    rw [htz]
    rfl
  rw [hiso]
  have hdata : (intRender (ensure_utc lt).wall ++ "+00:00").data =
      (intRender (ensure_utc lt).wall).data ++ ("+00:00").data := String.data_append _ _
  rw [hdata, zSuffix_append]
  have hmkdata2 : (String.mk ((intRender (ensure_utc lt).wall).data ++ [('Z' : Char)])).data =
      (intRender (ensure_utc lt).wall).data ++ [('Z' : Char)] := rfl
  rw [hmkdata2, zStrip_concat, pyFromIsoformat_utc]
  have heta : String.mk (intRender (ensure_utc lt).wall).data = intRender (ensure_utc lt).wall := rfl
  rw [heta, intParse_intRender]
  show some (mkReplayCheckpoint { wall := (ensure_utc lt).wall, tz := some 0 }
      (mkReplayCheckpoint lt ids ver).seen_ids_at_timestamp
      (mkReplayCheckpoint lt ids ver).schema_version) = some (mkReplayCheckpoint lt ids ver)
  simp only [Option.some.injEq]
  unfold mkReplayCheckpoint
  simp only [ReplayCheckpoint.mk.injEq]
  exact ⟨hdt, dedupBy_idem _ ids, trivial⟩

theorem alookup_alSet_self {κ β : Type} [DecidableEq κ] :
    ∀ (l : List (κ × β)) (k : κ) (v : β), alookup (alSet l k v) k = some v := by
  intro l
  induction l with
  | nil => intro k v; simp [alSet, alookup]
  | cons p rest ih =>
    intro k v
    rw [alSet]
    by_cases hk : k = p.1
    · rw [if_pos hk, alookup, if_pos hk]
    · rw [if_neg hk, alookup, if_neg hk]
      exact ih k v

/-- C9: a checkpoint written with `write_checkpoint` is read back equal by
`read_checkpoint` (the timestamp is serialized with a trailing `Z` and
parses back to the same UTC instant, ids and schema version round-trip
unchanged), and reading a name that was never written returns absence
rather than raising. -/
theorem claim_C9 :
    ∀ (st st2 : FileSystemStore) (name name2 : String) (lt : PyDatetime)
      (ids : List String) (ver : String),
    read_checkpoint (write_checkpoint st name (mkReplayCheckpoint lt ids ver)).1 name =
      .ok (some (mkReplayCheckpoint lt ids ver)) ∧
    (checkpointToDict (mkReplayCheckpoint lt ids ver)).last_timestamp.data.getLast? =
      some ('Z' : Char) ∧
    (alookup st2.checkpoints name2 = none → read_checkpoint st2 name2 = .ok none) := by
  intro st st2 name name2 lt ids ver
  refine ⟨?_, ?_, ?_⟩
  · unfold write_checkpoint read_checkpoint
    simp only []
    rw [alookup_alSet_self]
    show (match checkpointFromDict (checkpointToDict (mkReplayCheckpoint lt ids ver)) with
      | some cp => Except.ok (some cp)
      | none => Except.error (StoreError.valueError ("Invalid isoformat string"))) =
      Except.ok (some (mkReplayCheckpoint lt ids ver))
    rw [checkpoint_roundtrip]
  · unfold checkpointToDict
    have htz : (ensure_utc lt).tz = some 0 := by
      unfold ensure_utc
      cases lt.tz <;> rfl
    have hlast : (mkReplayCheckpoint lt ids ver).last_timestamp = ensure_utc lt := rfl
    rw [hlast]
    have hiso : pyIsoformat (ensure_utc lt) = intRender (ensure_utc lt).wall ++ "+00:00" := by
      unfold pyIsoformat
      rw [htz]
      rfl
    rw [hiso]
    have hdata : (intRender (ensure_utc lt).wall ++ "+00:00").data =
        (intRender (ensure_utc lt).wall).data ++ ("+00:00").data := String.data_append _ _
    show (String.mk (zSuffix (intRender (ensure_utc lt).wall ++ "+00:00").data)).data.getLast? =
      some ('Z' : Char)
    rw [hdata, zSuffix_append]
    exact List.getLast?_concat _
  · intro hnone
    unfold read_checkpoint
    rw [hnone]

/-- Concrete instantiation of C9: write then read round-trips on the empty
store, and reading a never-written name returns absence. -/
theorem claim_C9_witness :
    read_checkpoint
        (write_checkpoint emptyStore "resume" (mkReplayCheckpoint
          { wall := 3600, tz := some 0 } ["s-1", "s-2", "s-1"] "0.1")).1 "resume" =
      .ok (some (mkReplayCheckpoint { wall := 3600, tz := some 0 } ["s-1", "s-2", "s-1"] "0.1")) ∧
    read_checkpoint emptyStore "missing" = .ok none := by
  have h := claim_C9 emptyStore emptyStore "resume" "missing"
    { wall := 3600, tz := some 0 } ["s-1", "s-2", "s-1"] "0.1"
  exact ⟨h.1, h.2.2 rfl⟩

theorem mkReplayCheckpoint_congr (dt : PyDatetime) (l1 l2 : List String) (v : String)
    (h : dedupBy (fun s => s) l1 = dedupBy (fun s => s) l2) :
    mkReplayCheckpoint dt l1 v = mkReplayCheckpoint dt l2 v := by
  unfold mkReplayCheckpoint
  rw [h]

theorem buildAux_sorted :
    ∀ (rest : List SignalEnvelope) (lt : PyDatetime) (ids : List String),
    lt.tz = some 0 →
    (∀ x ∈ rest, lt.wall ≤ utcSec x.timestamp) →
    List.Pairwise (fun x y => utcSec x.timestamp ≤ utcSec y.timestamp) rest →
    ∃ (M : Int) (pre : List String),
      build_checkpoint_aux (some lt) ids rest =
        .ok (some (mkReplayCheckpoint { wall := M, tz := some 0 }
          (pre ++ (rest.filter (fun s => decide (utcSec s.timestamp = M))).map
            (fun s => s.signal_id)) "0.1")) ∧
      lt.wall ≤ M ∧ (∀ x ∈ rest, utcSec x.timestamp ≤ M) ∧
      ((M = lt.wall ∧ pre = ids) ∨
        (lt.wall < M ∧ pre = [] ∧ ∃ x ∈ rest, utcSec x.timestamp = M)) := by
  intro rest
  induction rest with
  | nil =>
    intro lt ids htz hbound hpw
    refine ⟨lt.wall, ids, ?_, le_refl _, by simp, Or.inl ⟨rfl, rfl⟩⟩
    have hlt : lt = { wall := lt.wall, tz := some 0 } := by
      cases lt with
      | mk w t => simp only [] at htz; rw [htz]
    rw [build_checkpoint_aux]
    rw [List.filter_nil, List.map_nil, List.append_nil, ← hlt]
  | cons h rest2 ih =>
    intro lt ids htz hbound hpw
    have hle : lt.wall ≤ utcSec h.timestamp := hbound h (List.mem_cons_self _ _)
    rcases List.pairwise_cons.mp hpw with ⟨hhead, hpw2⟩
    have hwall : (ensure_utc h.timestamp).wall = utcSec h.timestamp := rfl
    have htz2 : (ensure_utc h.timestamp).tz = some 0 := by
      unfold ensure_utc
      cases h.timestamp.tz <;> rfl
    rcases lt_or_eq_of_le hle with hstrict | heq
    · rw [build_checkpoint_aux]
      rw [if_pos (by rw [hwall]; exact hstrict)]
      rcases ih (ensure_utc h.timestamp) [h.signal_id] htz2
        (by intro x hx; rw [hwall]; exact hhead x hx) hpw2 with
        ⟨M, pre, hres, hM1, hM2, hdisj⟩
      rw [hwall] at hM1
      refine ⟨M, [], ?_, by omega, ?_, Or.inr ⟨by omega, rfl, ?_⟩⟩
      · rw [hres]
        rcases hdisj with ⟨hMeq, hpre⟩ | ⟨hMlt, hpre, hex⟩
        · subst hpre
          rw [hwall] at hMeq
          rw [List.filter_cons_of_pos (by simp [hMeq]), List.map_cons]
          rfl
        · subst hpre
          rw [List.filter_cons_of_neg (by rw [hwall] at hMlt; simp; omega)]
      · intro x hx
        rcases List.mem_cons.mp hx with rfl | hx2
        · omega
        · exact hM2 x hx2
      · rcases hdisj with ⟨hMeq, _⟩ | ⟨_, _, ⟨x, hx, hxM⟩⟩
        · exact ⟨h, List.mem_cons_self _ _, by rw [hwall] at hMeq; omega⟩
        · exact ⟨x, List.mem_cons_of_mem _ hx, hxM⟩
    · rw [build_checkpoint_aux]
      rw [if_neg (by rw [hwall]; omega), if_neg (by rw [hwall]; omega)]
      have hb2 : ∀ x ∈ rest2, lt.wall ≤ utcSec x.timestamp := by
        intro x hx
        have := hhead x hx
        omega
      by_cases hmem : h.signal_id ∈ ids
      · rw [if_pos hmem]
        rcases ih lt ids htz hb2 hpw2 with ⟨M, pre, hres, hM1, hM2, hdisj⟩
        rcases hdisj with ⟨hMeq, hpre⟩ | ⟨hMlt, hpre, hex⟩
        · refine ⟨M, ids, ?_, hM1, ?_, Or.inl ⟨hMeq, rfl⟩⟩
          · rw [hpre] at hres
            rw [hres]
            rw [List.filter_cons_of_pos (by simp; omega), List.map_cons]
            have hdd : dedupBy (fun s => s) (ids ++
                (rest2.filter (fun s => decide (utcSec s.timestamp = M))).map
                  (fun s => s.signal_id)) =
                dedupBy (fun s => s) (ids ++ h.signal_id ::
                  (rest2.filter (fun s => decide (utcSec s.timestamp = M))).map
                    (fun s => s.signal_id)) :=
              (mem_dedup_of_append_mem _ _ _ hmem).symm
            exact congrArg Except.ok (congrArg some (mkReplayCheckpoint_congr _ _ _ _ hdd))
          · intro x hx
            rcases List.mem_cons.mp hx with rfl | hx2
            · omega
            · exact hM2 x hx2
        · refine ⟨M, [], ?_, hM1, ?_, Or.inr ⟨hMlt, rfl, ?_⟩⟩
          · rw [hpre] at hres
            rw [hres]
            rw [List.filter_cons_of_neg (by simp; omega)]
          · intro x hx
            rcases List.mem_cons.mp hx with rfl | hx2
            · omega
            · exact hM2 x hx2
          · rcases hex with ⟨x, hx, hxM⟩
            exact ⟨x, List.mem_cons_of_mem _ hx, hxM⟩
      · rw [if_neg hmem]
        rcases ih lt (ids ++ [h.signal_id]) htz hb2 hpw2 with ⟨M, pre, hres, hM1, hM2, hdisj⟩
        rcases hdisj with ⟨hMeq, hpre⟩ | ⟨hMlt, hpre, hex⟩
        · refine ⟨M, ids, ?_, hM1, ?_, Or.inl ⟨hMeq, rfl⟩⟩
          · rw [hpre] at hres
            rw [hres]
            rw [List.filter_cons_of_pos (by simp; omega), List.map_cons,
              List.append_assoc]
            rfl
          · intro x hx
            rcases List.mem_cons.mp hx with rfl | hx2
            · omega
            · exact hM2 x hx2
        · refine ⟨M, [], ?_, hM1, ?_, Or.inr ⟨hMlt, rfl, ?_⟩⟩
          · rw [hpre] at hres
            rw [hres]
            rw [List.filter_cons_of_neg (by simp; omega)]
          · intro x hx
            rcases List.mem_cons.mp hx with rfl | hx2
            · omega
            · exact hM2 x hx2
          · rcases hex with ⟨x, hx, hxM⟩
            exact ⟨x, List.mem_cons_of_mem _ hx, hxM⟩

theorem buildAux_error :
    ∀ (rest : List SignalEnvelope) (lt : PyDatetime) (ids : List String),
    ((∃ x ∈ rest, utcSec x.timestamp < lt.wall) ∨
      ¬ List.Pairwise (fun x y => utcSec x.timestamp ≤ utcSec y.timestamp) rest) →
    build_checkpoint_aux (some lt) ids rest =
      .error (.valueError ("processed_signals must be in non-decreasing timestamp order")) := by
  intro rest
  induction rest with
  | nil =>
    intro lt ids hbad
    rcases hbad with ⟨x, hx, _⟩ | hnp
    · exact absurd hx (List.not_mem_nil x)
    · exact absurd List.Pairwise.nil hnp
  | cons h rest2 ih =>
    intro lt ids hbad
    have hwall : (ensure_utc h.timestamp).wall = utcSec h.timestamp := rfl
    have hsplit : utcSec h.timestamp < lt.wall ∨
        ((∃ x ∈ rest2, utcSec x.timestamp < utcSec h.timestamp ∧
          utcSec x.timestamp < lt.wall) ∨
          (∃ x ∈ rest2, utcSec x.timestamp < utcSec h.timestamp) ∨
          ¬ List.Pairwise (fun x y => utcSec x.timestamp ≤ utcSec y.timestamp) rest2 ∨
          (∃ x ∈ rest2, utcSec x.timestamp < lt.wall)) := by
      rcases hbad with ⟨x, hx, hlt⟩ | hnp
      · rcases List.mem_cons.mp hx with rfl | hx2
        · exact Or.inl hlt
        · exact Or.inr (Or.inr (Or.inr (Or.inr ⟨x, hx2, hlt⟩)))
      · rw [List.pairwise_cons] at hnp
        push_neg at hnp
        by_cases hall : ∀ x ∈ rest2, utcSec h.timestamp ≤ utcSec x.timestamp
        · exact Or.inr (Or.inr (Or.inr (Or.inl (hnp hall))))
        · push_neg at hall
          rcases hall with ⟨x, hx, hlt⟩
          exact Or.inr (Or.inr (Or.inl ⟨x, hx, by omega⟩))
    rw [build_checkpoint_aux]
    rcases hsplit with hcase | hcase
    · rw [if_neg (by rw [hwall]; omega), if_pos (by rw [hwall]; omega)]
    · by_cases hlt1 : lt.wall < utcSec h.timestamp
      · rw [if_pos (by rw [hwall]; omega)]
        apply ih
        rcases hcase with ⟨x, hx, h1, _⟩ | ⟨x, hx, h1⟩ | hnp | ⟨x, hx, h1⟩
        · exact Or.inl ⟨x, hx, by rw [hwall]; omega⟩
        · exact Or.inl ⟨x, hx, by rw [hwall]; omega⟩
        · exact Or.inr hnp
        · rcases lt_or_le (utcSec x.timestamp) (utcSec h.timestamp) with h2 | h2
          · exact Or.inl ⟨x, hx, by rw [hwall]; omega⟩
          · exact absurd h1 (by omega)
      · by_cases hlt2 : utcSec h.timestamp < lt.wall
        · rw [if_neg (by rw [hwall]; omega), if_pos (by rw [hwall]; omega)]
        · have heq : utcSec h.timestamp = lt.wall := by omega
          rw [if_neg (by rw [hwall]; omega), if_neg (by rw [hwall]; omega)]
          have hrec : (∃ x ∈ rest2, utcSec x.timestamp < lt.wall) ∨
              ¬ List.Pairwise (fun x y => utcSec x.timestamp ≤ utcSec y.timestamp) rest2 := by
            rcases hcase with ⟨x, hx, h1, h2⟩ | ⟨x, hx, h1⟩ | hnp | ⟨x, hx, h1⟩
            · exact Or.inl ⟨x, hx, h2⟩
            · exact Or.inl ⟨x, hx, by omega⟩
            · exact Or.inr hnp
            · exact Or.inl ⟨x, hx, h1⟩
          by_cases hmem : h.signal_id ∈ ids
          · rw [if_pos hmem]
            exact ih lt ids hrec
          · rw [if_neg hmem]
            exact ih lt (ids ++ [h.signal_id]) hrec

/-- C4: `build_signal_checkpoint` raises invalid-input exactly when some
signal's canonical UTC timestamp is strictly less than an earlier one's;
on the empty sequence it returns absence; otherwise it returns a
checkpoint whose `last_timestamp` is the maximum canonical timestamp and
whose `seen_ids_at_timestamp` is the ordered first-seen-deduplicated
list of the ids of exactly the signals carrying that maximum timestamp. -/
theorem claim_C4 :
    (build_signal_checkpoint ([] : List SignalEnvelope) = .ok none) ∧
    (∀ sigs : List SignalEnvelope,
      (build_signal_checkpoint sigs =
          .error (.valueError ("processed_signals must be in non-decreasing timestamp order")) ↔
        ¬ List.Pairwise (fun x y => utcSec x.timestamp ≤ utcSec y.timestamp) sigs)) ∧
    (∀ sigs : List SignalEnvelope, sigs ≠ [] →
      List.Pairwise (fun x y => utcSec x.timestamp ≤ utcSec y.timestamp) sigs →
      ∃ cp, build_signal_checkpoint sigs = .ok (some cp) ∧
        cp.last_timestamp.tz = some 0 ∧
        (∀ s ∈ sigs, utcSec s.timestamp ≤ cp.last_timestamp.wall) ∧
        (∃ s ∈ sigs, utcSec s.timestamp = cp.last_timestamp.wall) ∧
        cp.seen_ids_at_timestamp = dedupBy (fun x => x)
          ((sigs.filter (fun s => decide (utcSec s.timestamp = cp.last_timestamp.wall))).map
            (fun s => s.signal_id)) ∧
        cp.schema_version = "0.1") := by
  have hok : ∀ (sigs : List SignalEnvelope), sigs ≠ [] →
      List.Pairwise (fun x y => utcSec x.timestamp ≤ utcSec y.timestamp) sigs →
      ∃ cp, build_signal_checkpoint sigs = .ok (some cp) ∧
        cp.last_timestamp.tz = some 0 ∧
        (∀ s ∈ sigs, utcSec s.timestamp ≤ cp.last_timestamp.wall) ∧
        (∃ s ∈ sigs, utcSec s.timestamp = cp.last_timestamp.wall) ∧
        cp.seen_ids_at_timestamp = dedupBy (fun x => x)
          ((sigs.filter (fun s => decide (utcSec s.timestamp = cp.last_timestamp.wall))).map
            (fun s => s.signal_id)) ∧
        cp.schema_version = "0.1" := by
    intro sigs hne hpw
    cases sigs with
    | nil => exact absurd rfl hne
    | cons h rest =>
      rcases List.pairwise_cons.mp hpw with ⟨hhead, hpw2⟩
      have hwall : (ensure_utc h.timestamp).wall = utcSec h.timestamp := rfl
      have htz2 : (ensure_utc h.timestamp).tz = some 0 := by
        unfold ensure_utc
        cases h.timestamp.tz <;> rfl
      rcases buildAux_sorted rest (ensure_utc h.timestamp) [h.signal_id] htz2
        (by intro x hx; rw [hwall]; exact hhead x hx) hpw2 with
        ⟨M, pre, hres, hM1, hM2, hdisj⟩
      rw [hwall] at hM1
      refine ⟨mkReplayCheckpoint { wall := M, tz := some 0 }
        (pre ++ (rest.filter (fun s => decide (utcSec s.timestamp = M))).map
          (fun s => s.signal_id)) "0.1", ?_, rfl, ?_, ?_, ?_, rfl⟩
      · show build_checkpoint_aux none [] (h :: rest) = _
        rw [build_checkpoint_aux]
        exact hres
      · have hcw : (mkReplayCheckpoint { wall := M, tz := some 0 }
            (pre ++ (rest.filter (fun s => decide (utcSec s.timestamp = M))).map
              (fun s => s.signal_id)) "0.1").last_timestamp.wall = M := by
          show (ensure_utc { wall := M, tz := some 0 }).wall = M
          show M - 0 = M
          omega
        rw [hcw]
        intro s hs
        rcases List.mem_cons.mp hs with rfl | hs2
        · omega
        · exact hM2 s hs2
      · have hcw : (mkReplayCheckpoint { wall := M, tz := some 0 }
            (pre ++ (rest.filter (fun s => decide (utcSec s.timestamp = M))).map
              (fun s => s.signal_id)) "0.1").last_timestamp.wall = M := by
          show (ensure_utc { wall := M, tz := some 0 }).wall = M
          show M - 0 = M
          omega
        rw [hcw]
        rcases hdisj with ⟨hMeq, _⟩ | ⟨_, _, ⟨x, hx, hxM⟩⟩
        · exact ⟨h, List.mem_cons_self _ _, by rw [hwall] at hMeq; omega⟩
        · exact ⟨x, List.mem_cons_of_mem _ hx, hxM⟩
      · have hcw : (mkReplayCheckpoint { wall := M, tz := some 0 }
            (pre ++ (rest.filter (fun s => decide (utcSec s.timestamp = M))).map
              (fun s => s.signal_id)) "0.1").last_timestamp.wall = M := by
          show (ensure_utc { wall := M, tz := some 0 }).wall = M
          show M - 0 = M
          omega
        rw [hcw]
        show dedupBy (fun s => s)
            (pre ++ (rest.filter (fun s => decide (utcSec s.timestamp = M))).map
              (fun s => s.signal_id)) = _
        rcases hdisj with ⟨hMeq, hpre⟩ | ⟨hMlt, hpre, _⟩
        · rw [hpre]
          rw [hwall] at hMeq
          rw [List.filter_cons_of_pos (by simp [hMeq]), List.map_cons]
          rfl
        · rw [hpre]
          rw [List.filter_cons_of_neg (by rw [hwall] at hMlt; simp; omega)]
          rfl
  refine ⟨rfl, ?_, hok⟩
  intro sigs
  constructor
  · intro herr
    intro hpw
    cases hs : sigs with
    | nil =>
      rw [hs] at herr
      exact absurd herr (by simp [build_signal_checkpoint, build_checkpoint_aux])
    | cons h rest =>
      rw [hs] at herr hpw
      rcases hok (h :: rest) (by simp) hpw with ⟨cp, hcp, _⟩
      rw [herr] at hcp
      exact absurd hcp (by simp)
  · intro hnp
    cases hs : sigs with
    | nil =>
      rw [hs] at hnp
      exact absurd List.Pairwise.nil hnp
    | cons h rest =>
      rw [hs] at hnp
      have hwall : (ensure_utc h.timestamp).wall = utcSec h.timestamp := rfl
      show build_checkpoint_aux none [] (h :: rest) = _
      rw [build_checkpoint_aux]
      apply buildAux_error
      rw [List.pairwise_cons] at hnp
      push_neg at hnp
      by_cases hall : ∀ x ∈ rest, utcSec h.timestamp ≤ utcSec x.timestamp
      · exact Or.inr (hnp hall)
      · push_neg at hall
        rcases hall with ⟨x, hx, hlt⟩
        exact Or.inl ⟨x, hx, by rw [hwall]; omega⟩

/-- Fixture signal with an early timestamp. -/
def sigEarly : SignalEnvelope :=
  { signal_id := "s-e", timestamp := { wall := 100, tz := some 0 }, source := "ingestor.a"
    payload_type := "Synthetic", payload := .pother, entity_refs := [], schema_version := "0.1" }

/-- Fixture signal with a later timestamp. -/
def sigLate : SignalEnvelope :=
  { signal_id := "s-l", timestamp := { wall := 200, tz := some 0 }, source := "ingestor.a"
    payload_type := "Synthetic", payload := .pother, entity_refs := [], schema_version := "0.1" }

/-- Concrete instantiation of C4: empty input, an out-of-order input, and
a sorted input. -/
theorem claim_C4_witness :
    (build_signal_checkpoint ([] : List SignalEnvelope) = .ok none) ∧
    (build_signal_checkpoint [sigLate, sigEarly] =
      .error (.valueError ("processed_signals must be in non-decreasing timestamp order"))) ∧
    (∃ cp, build_signal_checkpoint [sigEarly, sigLate] = .ok (some cp) ∧
      cp.last_timestamp.tz = some 0 ∧
      (∀ s ∈ [sigEarly, sigLate], utcSec s.timestamp ≤ cp.last_timestamp.wall) ∧
      (∃ s ∈ [sigEarly, sigLate], utcSec s.timestamp = cp.last_timestamp.wall) ∧
      cp.seen_ids_at_timestamp = dedupBy (fun x => x)
        (([sigEarly, sigLate].filter
          (fun s => decide (utcSec s.timestamp = cp.last_timestamp.wall))).map
            (fun s => s.signal_id)) ∧
      cp.schema_version = "0.1") :=
  ⟨claim_C4.1,
    (claim_C4.2.1 [sigLate, sigEarly]).mpr (by decide),
    claim_C4.2.2 [sigEarly, sigLate] (by decide) (by decide)⟩

theorem mem_insertSortedUnique (a x : String) :
    ∀ (l : List String), x ∈ insertSortedUnique a l ↔ x = a ∨ x ∈ l := by
  intro l
  induction l with
  | nil => simp [insertSortedUnique]
  | cons y ys ih =>
    rw [insertSortedUnique]
    by_cases h1 : a = y
    · rw [if_pos h1]
      subst h1
      simp only [List.mem_cons]
      tauto
    · rw [if_neg h1]
      by_cases h2 : strLtB a y = true
      · rw [if_pos h2]
        simp [List.mem_cons]
      · rw [if_neg h2]
        simp only [List.mem_cons, ih]
        tauto

theorem mem_sortedUnion (l1 l2 : List String) (x : String) :
    x ∈ sortedUnion l1 l2 ↔ x ∈ l1 ∨ x ∈ l2 := by
  have haux : ∀ (l : List String), x ∈ l.foldr insertSortedUnique [] ↔ x ∈ l := by
    intro l
    induction l with
    | nil => simp
    | cons y ys ih
 =>
      rw [List.foldr_cons, mem_insertSortedUnique]
      simp only [List.mem_cons, ih]
  unfold sortedUnion
  rw [haux, List.mem_append]


theorem listLtB_asymm : ∀ (x y : List Char), listLtB x y = true → listLtB y x = false := by
  intro x
  induction x with
  | nil =>
    intro y h
    cases y with
    | nil => exact absurd h (by rw [listLtB]; simp)
    | cons d ds => rw [listLtB]
  | cons c cs ih =>
    intro y h
    cases y with
    | nil => exact absurd h (by rw [listLtB]; simp)
    | cons d ds =>
      rw [listLtB] at h ⊢
      by_cases h1 : c.toNat < d.toNat
      · rw [if_neg (by omega : ¬d.toNat < c.toNat), if_pos h1]
      · by_cases h2 : d.toNat < c.toNat
        · rw [if_neg h1, if_pos h2] at h
          exact absurd h (by simp)
        · rw [if_neg h1, if_neg h2] at h
          rw [if_neg h2, if_neg h1]
          exact ih ds h

theorem listLtB_trans : ∀ (x y z : List Char),
    listLtB x y = true → listLtB y z = true → listLtB x z = true := by
  intro x
  induction x with
  | nil =>
    intro y z hxy hyz
    cases z with
    | nil =>
      cases y with
      | nil => exact absurd hxy (by rw [listLtB]; simp)
      | cons d ds => exact absurd hyz (by rw [listLtB]; simp)
    | cons e es => rw [listLtB]
  | cons c cs ih =>
    intro y z hxy hyz
    cases y with
    | nil => exact absurd hxy (by rw [listLtB]; simp)
    | cons d ds =>
      cases z with
      | nil => exact absurd hyz (by rw [listLtB]; simp)
      | cons e es =>
        rw [listLtB] at hxy hyz ⊢
        by_cases h1 : c.toNat < d.toNat
        · by_cases h2 : d.toNat < e.toNat
          · rw [if_pos (by omega : c.toNat < e.toNat)]
          · by_cases h3 : e.toNat < d.toNat
            · rw [if_neg h2, if_pos h3] at hyz
              exact absurd hyz (by simp)
            · rw [if_pos (by omega : c.toNat < e.toNat)]
        · by_cases h1b : d.toNat < c.toNat
          · rw [if_neg h1, if_pos h1b] at hxy
            exact absurd hxy (by simp)
          · rw [if_neg h1, if_neg h1b] at hxy
            by_cases h2 : d.toNat < e.toNat
            · rw [if_pos (by omega : c.toNat < e.toNat)]
            · by_cases h3 : e.toNat < d.toNat
              · rw [if_neg h2, if_pos h3] at hyz
                exact absurd hyz (by simp)
              · rw [if_neg h2, if_neg h3] at hyz
                rw [if_neg (by omega : ¬c.toNat < e.toNat),
                  if_neg (by omega : ¬e.toNat < c.toNat)]
                exact ih ds es hxy hyz

theorem listLtB_conn : ∀ (x y : List Char),
    listLtB x y = false → listLtB y x = false → x = y := by
  intro x
  induction x with
  | nil =>
    intro y hxy _
    cases y with
    | nil => rfl
    | cons d ds => exact absurd hxy (by rw [listLtB]; simp)
  | cons c cs ih =>
    intro y hxy hyx
    cases y with
    | nil => exact absurd hyx (by rw [listLtB]; simp)
    | cons d ds =>
      rw [listLtB] at hxy hyx
      by_cases h1 : c.toNat < d.toNat
      · rw [if_pos h1] at hxy
        exact absurd hxy (by simp)
      · by_cases h2 : d.toNat < c.toNat
        · rw [if_pos h2] at hyx
          exact absurd hyx (by simp)
        · rw [if_neg h1, if_neg h2] at hxy
          rw [if_neg h2, if_neg h1] at hyx
          have hcd : c = d := by
            have htn : c.toNat = d.toNat := by omega
            apply Char.ext
            apply UInt32.ext
            exact htn
          rw [hcd, ih ds hxy hyx]

theorem strLeB_total (a b : String) : strLeB a b = true ∨ strLeB b a = true := by
  unfold strLeB
  by_cases h : strLtB b a = true
  · right
    unfold strLtB at h ⊢
    rw [listLtB_asymm _ _ h]
    rfl
  · left
    rw [Bool.eq_false_iff.mpr h]
    rfl

theorem strLeB_trans (a b c : String) (h1 : strLeB a b = true) (h2 : strLeB b c = true) :
    strLeB a c = true := by
  unfold strLeB strLtB at h1 h2 ⊢
  simp only [Bool.not_eq_true'] at h1 h2 ⊢
  by_contra hc
  have hca : listLtB c.data a.data = true := by
    cases h : listLtB c.data a.data
    · exact absurd h hc
    · rfl
  by_cases hbc : listLtB b.data c.data = true
  · exact absurd (listLtB_trans _ _ _ hbc hca) (by rw [h1]; simp)
  · have hbc2 : listLtB b.data c.data = false := by
      cases h : listLtB b.data c.data
      · rfl
      · exact absurd h hbc
    have hbceq : b.data = c.data := listLtB_conn _ _ hbc2 h2
    rw [hbceq] at h1
    exact absurd hca (by rw [h1]; simp)

theorem tsIdLe_total : ∀ k1 k2, tsIdLe k1 k2 = true ∨ tsIdLe k2 k1 = true := by
  intro k1 k2
  simp only [tsIdLe, Bool.or_eq_true, Bool.and_eq_true, decide_eq_true_eq]
  rcases lt_trichotomy k1.1 k2.1 with h | h | h
  · exact Or.inl (Or.inl h)
  · rcases strLeB_total k1.2 k2.2 with h2 | h2
    · exact Or.inl (Or.inr ⟨h, h2⟩)
    · exact Or.inr (Or.inr ⟨h.symm, h2⟩)
  · exact Or.inr (Or.inl h)

theorem tsIdLe_trans : ∀ k1 k2 k3, tsIdLe k1 k2 = true → tsIdLe k2 k3 = true →
    tsIdLe k1 k3 = true := by
  intro k1 k2 k3 h12 h23
  simp only [tsIdLe, Bool.or_eq_true, Bool.and_eq_true, decide_eq_true_eq] at h12 h23 ⊢
  rcases h12 with h12 | ⟨h12a, h12b⟩
  · rcases h23 with h23 | ⟨h23a, h23b⟩
    · exact Or.inl (by omega)
    · exact Or.inl (by omega)
  · rcases h23 with h23 | ⟨h23a, h23b⟩
    · exact Or.inl (by omega)
    · exact Or.inr ⟨by omega, strLeB_trans _ _ _ h12b h23b⟩

theorem iter_emissions_err (st : FileSystemStore) (start finish : PyDatetime)
    (eref : Option EntityRef) (types : Option (List String))
    (h : utcSec finish < utcSec start) :
    iter_emissions st start finish eref types =
      .error (.valueError ("end must be greater than or equal to start")) := by
  unfold iter_emissions
  simp [h]

theorem get_unresolved_ok (st : FileSystemStore) (start finish : PyDatetime)
    (eref : Option EntityRef) (sources pend succ fail : Option (List String))
    (hab : utcSec start ≤ utcSec finish) :
    get_unresolved_outcome_signals st start finish eref sources pend succ fail =
      .ok (pySort (fun s1 s2 => tsIdLe (utcSec s1.timestamp, s1.signal_id)
          (utcSec s2.timestamp, s2.signal_id))
        ((dedupBy (fun s => s.signal_id)
          ((scanCandidatesSig st (utcSec start) (utcSec finish)).filter
            (sigPass (utcSec start) (utcSec finish) (truthyList sources) eref))).filter
          (fun s =>
            decide (s.payload_type ∈ effTypes pend DEFAULT_PENDING_OUTCOME_PAYLOAD_TYPES) &&
            !(decide (s.signal_id ∈ (dedupBy (fun e => e.emission_id)
              ((scanCandidatesEmi st (utcSec start) (utcSec finish)).filter
                (emiPass (utcSec start) (utcSec finish)
                  (truthyList (some (sortedUnion
                    (effTypes succ DEFAULT_SUCCESS_EMISSION_TYPES)
                    (effTypes fail DEFAULT_FAILURE_EMISSION_TYPES)))) eref))).map
              (fun e => e.caused_by)))))) := by
  unfold get_unresolved_outcome_signals
  simp only [iter_emissions_ok st start finish eref
      (some (sortedUnion (effTypes succ DEFAULT_SUCCESS_EMISSION_TYPES)
        (effTypes fail DEFAULT_FAILURE_EMISSION_TYPES))) hab,
    iter_signals_ok st start finish eref sources hab]

/-- C8: a pending signal appears in `get_unresolved_outcome_signals`
exactly when it is yielded by the window's signal scan, its
`payload_type` is in the pending set, and no emission yielded by the
window's emission scan (typed with the success-or-failure union) has
`caused_by` equal to its id; the result is sorted ascending by
`(timestamp, id)`. -/
theorem claim_C8 :
    ∀ (st : FileSystemStore) (start finish : PyDatetime) (eref : Option EntityRef)
      (sources pend succ fail : Option (List String)) (out : List SignalEnvelope),
    get_unresolved_outcome_signals st start finish eref sources pend succ fail = .ok out →
    ∃ emis sigs,
      iter_emissions st start finish eref
        (some (sortedUnion (effTypes succ DEFAULT_SUCCESS_EMISSION_TYPES)
          (effTypes fail DEFAULT_FAILURE_EMISSION_TYPES))) = .ok emis ∧
      iter_signals st start finish eref sources = .ok sigs ∧
      (∀ t, t ∈ sortedUnion (effTypes succ DEFAULT_SUCCESS_EMISSION_TYPES)
          (effTypes fail DEFAULT_FAILURE_EMISSION_TYPES) ↔
        t ∈ effTypes succ DEFAULT_SUCCESS_EMISSION_TYPES ∨
        t ∈ effTypes fail DEFAULT_FAILURE_EMISSION_TYPES) ∧
      (∀ s, s ∈ out ↔
        (s ∈ sigs ∧ s.payload_type ∈ effTypes pend DEFAULT_PENDING_OUTCOME_PAYLOAD_TYPES ∧
          ¬ ∃ e ∈ emis, e.caused_by = s.signal_id)) ∧
      List.Pairwise (fun x y =>
        tsIdLe (utcSec x.timestamp, x.signal_id) (utcSec y.timestamp, y.signal_id) = true) out := by
  intro st start finish eref sources pend succ fail out hout
  have hab : utcSec start ≤ utcSec finish := by
    by_contra hc
    rw [show get_unresolved_outcome_signals st start finish eref sources pend succ fail =
        .error (.valueError ("end must be greater than or equal to start")) by
      unfold get_unresolved_outcome_signals
      simp only [iter_emissions_err st start finish eref
        (some (sortedUnion (effTypes succ DEFAULT_SUCCESS_EMISSION_TYPES)
          (effTypes fail DEFAULT_FAILURE_EMISSION_TYPES))) (by omega)]] at hout
    exact absurd hout (by simp)
  rw [get_unresolved_ok st start finish eref sources pend succ fail hab] at hout
  injection hout with hout
  refine ⟨_, _, iter_emissions_ok st start finish eref _ hab,
    iter_signals_ok st start finish eref sources hab, mem_sortedUnion _ _, ?_, ?_⟩
  · intro s
    rw [← hout, mem_pySort, List.mem_filter]
    simp only [Bool.and_eq_true, decide_eq_true_eq, Bool.not_eq_true']
    constructor
    · intro ⟨hmem, hpt, hres⟩
      refine ⟨hmem, hpt, ?_⟩
      intro ⟨e, he, hce⟩
      rw [decide_eq_false_iff_not] at hres
      exact hres (List.mem_map.mpr ⟨e, he, hce⟩)
    · intro ⟨hmem, hpt, hres⟩
      refine ⟨hmem, hpt, ?_⟩
      rw [decide_eq_false_iff_not]
      intro hmm
      rcases List.mem_map.mp hmm with ⟨e, he, hce⟩
      exact hres ⟨e, he, hce⟩
  · rw [← hout]
    exact pairwise_pySort
      (fun (s1 s2 : SignalEnvelope) =>
        tsIdLe (utcSec s1.timestamp, s1.signal_id) (utcSec s2.timestamp, s2.signal_id))
      (fun s1 s2 => tsIdLe_total _ _)
      (fun s1 s2 s3 => tsIdLe_trans _ _ _) _

/-- Concrete instantiation of C8 on `storeA`, where the success emission
`emiA` resolves the pending signal `sigA`, leaving the unresolved set
empty. -/
theorem claim_C8_witness :
    ∃ emis sigs,
      iter_emissions storeA { wall := 0, tz := some 0 } { wall := 86399, tz := some 0 } none
        (some (sortedUnion (effTypes none DEFAULT_SUCCESS_EMISSION_TYPES)
          (effTypes none DEFAULT_FAILURE_EMISSION_TYPES))) = .ok emis ∧
      iter_signals storeA { wall := 0, tz := some 0 } { wall := 86399, tz := some 0 }
        none none = .ok sigs ∧
      (∀ t, t ∈ sortedUnion (effTypes none DEFAULT_SUCCESS_EMISSION_TYPES)
          (effTypes none DEFAULT_FAILURE_EMISSION_TYPES) ↔
        t ∈ effTypes none DEFAULT_SUCCESS_EMISSION_TYPES ∨
        t ∈ effTypes none DEFAULT_FAILURE_EMISSION_TYPES) ∧
      (∀ s, s ∈ ([] : List SignalEnvelope) ↔
        (s ∈ sigs ∧ s.payload_type ∈ effTypes none DEFAULT_PENDING_OUTCOME_PAYLOAD_TYPES ∧
          ¬ ∃ e ∈ emis, e.caused_by = s.signal_id)) ∧
      List.Pairwise (fun x y =>
        tsIdLe (utcSec x.timestamp, x.signal_id) (utcSec y.timestamp, y.signal_id) = true)
        ([] : List SignalEnvelope) :=
  claim_C8 storeA { wall := 0, tz := some 0 } { wall := 86399, tz := some 0 }
    none none none none none [] rfl

/-- Score of a candidate signal as ranked by the spec pipeline:
`float(payload.get(score_field, 0.0))`, and `0` for non-candidates. -/
def specScore (score_field : String) (s : SignalEnvelope) : Rat :=
  match s.payload with
  | .pdict es => (toFloat (pdictGet es score_field (.pfloat 0))).getD 0
  | .pother => 0

/-- The candidate-survival test of the amended C5: the payload is a
mapping and `payload.get(score_field, 0.0)` is numeric. -/
def specNumericOk (score_field : String) (s : SignalEnvelope) : Bool :=
  match s.payload with
  | .pdict es => (toFloat (pdictGet es score_field (.pfloat 0))).isSome
  | .pother => false

/-- Spec-side pipeline for the amended C5, written from the claim's words:
skip a scanned signal unless its payload is a mapping whose
`score_field` value (defaulting to `0.0` when the key is missing) is
numeric; sort survivors by `(score desc, timestamp desc, id desc)`;
when `unique_by_entity` dedup by the first entity ref's
`"ref_type:platform:value"` key (or `"signal:<id>"`); cap at `limit`. -/
def spec_top_recommendation_candidates (st : FileSystemStore) (start finish : PyDatetime)
    (limit : Int) (entity_ref : Option EntityRef) (sources : Option (List String))
    (payload_types : Option (List String)) (score_field : String) (unique_by_entity : Bool) :
    Except StoreError (List SignalEnvelope) :=
  if limit ≤ 0 then .ok []
  else
    match iter_signals st start finish entity_ref sources with
    | .error e => .error e
    | .ok sigs =>
      let surviving := sigs.filter (fun s =>
        ptOk (truthyList payload_types) s && specNumericOk score_field s)
      let ranked := pySort (fun s1 s2 =>
        rankGe (specScore score_field s1, utcSec s1.timestamp, s1.signal_id)
          (specScore score_field s2, utcSec s2.timestamp, s2.signal_id)) surviving
      let selected := if unique_by_entity then dedupBy entityKey ranked else ranked
      .ok (selected.take limit.toNat)

theorem topCandidateTuples_eq (ptSet : Option (List String)) (score_field : String) :
    ∀ (sigs : List SignalEnvelope),
    topCandidateTuples ptSet score_field sigs =
      (sigs.filter (fun s => ptOk ptSet s && specNumericOk score_field s)).map
        (fun s => (specScore score_field s, utcSec s.timestamp, s.signal_id, s)) := by
  intro sigs
  induction sigs with
  | nil => rfl
  | cons s rest ih =>
    have hstep : topCandidateTuples ptSet score_field (s :: rest) =
        (if ptOk ptSet s = false then topCandidateTuples ptSet score_field rest
          else match s.payload with
            | .pother => topCandidateTuples ptSet score_field rest
            | .pdict es =>
              match toFloat (pdictGet es score_field (.pfloat 0)) with
              | none => topCandidateTuples ptSet score_field rest
              | some q => (q, utcSec s.timestamp, s.signal_id, s) ::
                  topCandidateTuples ptSet score_field rest) := rfl
    rw [hstep]
    cases hpt : ptOk ptSet s with
    | false =>
      rw [if_pos rfl, List.filter_cons_of_neg (by simp [hpt]), ih]
    | true =>
      rw [if_neg (by simp)]
      cases hpay : s.payload with
      | pother =>
        rw [List.filter_cons_of_neg (by simp [specNumericOk, hpay]), ih]
      | pdict es =>
        cases htf : toFloat (pdictGet es score_field (.pfloat 0)) with
        | none =>
          rw [List.filter_cons_of_neg (by simp [specNumericOk, hpay, htf]), ih]
          simp only [htf]
        | some q =>
          rw [List.filter_cons_of_pos (by simp [hpt, specNumericOk, hpay, htf]),
            List.map_cons, ih]
          have hq : specScore score_field s = q := by simp [specScore, hpay, htf]
          rw [hq]
          simp only [htf]

theorem selectUniqueAux_eq (n : Nat) :
    ∀ (l : List (Rat × Int × String × SignalEnvelope)) (seen : List String)
      (sel : List SignalEnvelope),
    sel.length < n →
    selectUniqueAux n l seen sel =
      sel ++ (dedupByAux entityKey seen (l.map (fun c => c.2.2.2))).take (n - sel.length) := by
  intro l
  induction l with
  | nil =>
    intro seen sel hlen
    rw [selectUniqueAux]
    simp [dedupByAux]
  | cons c rest ih =>
    intro seen sel hlen
    rw [selectUniqueAux, List.map_cons]
    by_cases hseen : entityKey c.2.2.2 ∈ seen
    · rw [if_pos hseen, dedupByAux, if_pos hseen]
      exact ih seen sel hlen
    · rw [if_neg hseen, dedupByAux, if_neg hseen]
      by_cases hfull : n ≤ (sel ++ [c.2.2.2]).length
      · rw [if_pos hfull]
        have hn : n - sel.length = 1 := by
          rw [List.length_append] at hfull
          simp at hfull
          omega
        rw [hn, List.take_succ_cons, List.take_zero]
      · rw [if_neg hfull]
        rw [ih (entityKey c.2.2.2 :: seen) (sel ++ [c.2.2.2])
          (by rw [List.length_append]; rw [List.length_append] at hfull; simp at hfull ⊢; omega)]
        have hn : n - sel.length = (n - (sel ++ [c.2.2.2]).length) + 1 := by
          rw [List.length_append]
          rw [List.length_append] at hfull
          simp at hfull ⊢
          omega
        rw [hn, List.take_succ_cons, List.append_assoc]
        rfl

/-- C5 (amended): `get_top_recommendation_candidates` skips a scanned
signal unless its payload is a mapping whose `score_field` value —
defaulting to `0.0` when the key is missing — is numeric; survivors are
sorted by `(score desc, timestamp desc, id desc)`, deduplicated by the
first entity ref's key when `unique_by_entity`, and capped at `limit`:
the code equals the spec pipeline `spec_top_recommendation_candidates`. -/
theorem claim_C5 :
    ∀ (st : FileSystemStore) (start finish : PyDatetime) (limit : Int)
      (eref : Option EntityRef) (sources payload_types : Option (List String))
      (score_field : String) (uniq : Bool),
    get_top_recommendation_candidates st start finish limit eref sources payload_types
        score_field uniq =
      spec_top_recommendation_candidates st start finish limit eref sources payload_types
        score_field uniq := by
  intro st start finish limit eref sources payload_types score_field uniq
  unfold get_top_recommendation_candidates spec_top_recommendation_candidates
  by_cases hlim : limit ≤ 0
  · rw [if_pos hlim, if_pos hlim]
  · rw [if_neg hlim, if_neg hlim]
    cases hscan : iter_signals st start finish eref sources with
    | error e => rfl
    | ok sigs =>
      have hpos : 0 < limit.toNat := by omega
      have hcand := topCandidateTuples_eq (truthyList payload_types) score_field sigs
      have hsort := map_pySort
        (fun (c1 c2 : Rat × Int × String × SignalEnvelope) =>
          rankGe (c1.1, c1.2.1, c1.2.2.1) (c2.1, c2.2.1, c2.2.2.1))
        (fun (s1 s2 : SignalEnvelope) =>
          rankGe (specScore score_field s1, utcSec s1.timestamp, s1.signal_id)
            (specScore score_field s2, utcSec s2.timestamp, s2.signal_id))
        (fun s => (specScore score_field s, utcSec s.timestamp, s.signal_id, s))
        (fun a b => rfl)
        (sigs.filter (fun s => ptOk (truthyList payload_types) s && specNumericOk score_field s))
      cases uniq with
      | false =>
        show Except.ok
            (((pySort (fun (c1 c2 : Rat × Int × String × SignalEnvelope) =>
                rankGe (c1.1, c1.2.1, c1.2.2.1) (c2.1, c2.2.1, c2.2.2.1))
              (topCandidateTuples (truthyList payload_types) score_field sigs)).take
                limit.toNat).map (fun c => c.2.2.2)) =
          Except.ok
            ((pySort (fun (s1 s2 : SignalEnvelope) =>
                rankGe (specScore score_field s1, utcSec s1.timestamp, s1.signal_id)
                  (specScore score_field s2, utcSec s2.timestamp, s2.signal_id))
              (sigs.filter (fun s =>
                ptOk (truthyList payload_types) s && specNumericOk score_field s))).take
                limit.toNat)
        rw [hcand, ← hsort]
        congr 1
        rw [← List.map_take, List.map_map]
        have : ((fun (c : Rat × Int × String × SignalEnvelope) => c.2.2.2) ∘
            (fun s => (specScore score_field s, utcSec s.timestamp, s.signal_id, s))) =
            (fun (s : SignalEnvelope) => s) := rfl
        rw [this, List.map_id']
      | true =>
        show Except.ok
            (selectUniqueAux limit.toNat
              (pySort (fun (c1 c2 : Rat × Int × String × SignalEnvelope) =>
                rankGe (c1.1, c1.2.1, c1.2.2.1) (c2.1, c2.2.1, c2.2.2.1))
                (topCandidateTuples (truthyList payload_types) score_field sigs)) [] []) =
          Except.ok
            ((dedupBy entityKey (pySort (fun (s1 s2 : SignalEnvelope) =>
                rankGe (specScore score_field s1, utcSec s1.timestamp, s1.signal_id)
                  (specScore score_field s2, utcSec s2.timestamp, s2.signal_id))
              (sigs.filter (fun s =>
                ptOk (truthyList payload_types) s && specNumericOk score_field s)))).take
                limit.toNat)
        rw [hcand, ← hsort,
          selectUniqueAux_eq limit.toNat _ [] [] (by simpa using hpos)]
        congr 1
        rw [List.nil_append, List.map_map]
        have : ((fun (c : Rat × Int × String × SignalEnvelope) => c.2.2.2) ∘
            (fun s => (specScore score_field s, utcSec s.timestamp, s.signal_id, s))) =
            (fun (s : SignalEnvelope) => s) := rfl
        rw [this, List.map_id']
        rfl

/-- Fixture signal whose dict payload has no "score" entry. -/
def sigNoScore : SignalEnvelope :=
  { signal_id := "s-ns", timestamp := { wall := 3600, tz := some 0 }, source := "ingestor.a"
    payload_type := "Synthetic", payload := .pdict [], entity_refs := []
    schema_version := "0.1" }

/-- Fixture store holding only `sigNoScore` in the epoch-day partition. -/
def storeNS : FileSystemStore :=
  { signalParts := [(0, [sigNoScore])], emissionParts := [], checkpoints := []
    signalIndex := none, emissionIndex := none }

/-- C5 counterexample to the original claim: `sigNoScore`'s payload is a
mapping with no "score" entry, so `payload[score_field]` does not exist
(let alone being numeric) and the original claim would skip it; yet
`get_top_recommendation_candidates` returns it, because the code uses
`payload.get(score_field, 0.0)` and the `0.0` default is numeric. -/
theorem claim_C5_counterexample :
    alookup ([] : List (String × PyVal)) "score" = none ∧
    sigNoScore.payload = .pdict [] ∧
    get_top_recommendation_candidates storeNS { wall := 0, tz := some 0 }
        { wall := 86399, tz := some 0 } 5 none none none "score" false =
      .ok [sigNoScore] := ⟨rfl, rfl, rfl⟩

theorem mem_getD_addLine {α : Type} :
    ∀ (parts : List (Int × List α)) (d : Int) (x : α),
    x ∈ (alookup (addLine parts d x) d).getD [] := by
  intro parts
  induction parts with
  | nil =>
    intro d x
    simp [addLine, alookup]
  | cons p rest ih =>
    intro d x
    obtain ⟨d0, ls⟩ := p
    rw [addLine]
    by_cases h1 : d = d0
    · rw [if_pos h1, alookup, if_pos h1]
      simp
    · rw [if_neg h1]
      by_cases h2 : d < d0
      · rw [if_pos h2, alookup, if_pos rfl]
        simp
      · rw [if_neg h2, alookup, if_neg h1]
        exact ih d x

theorem write_signal_fresh (st : FileSystemStore) (x : SignalEnvelope) (pol : String)
    (hid : ¬ x.signal_id = "") (hsv : ¬ x.schema_version = "")
    (hfresh : alookup (effSignalIndex st) x.signal_id = none) :
    write_signal st x pol =
      ({ st with signalParts := addLine st.signalParts (dayOf x.timestamp) x,
                 signalIndex := some (alSet (effSignalIndex st) x.signal_id (dayOf x.timestamp)) },
        .ok (dayOf x.timestamp)) := by
  unfold write_signal
  rw [if_neg hid, if_neg hsv]
  simp only [hfresh]
  rfl

theorem write_emission_fresh (st : FileSystemStore) (y : EmissionEnvelope) (pol : String)
    (hid : ¬ y.emission_id = "") (hsv : ¬ y.schema_version = "")
    (hfresh : alookup (effEmissionIndex st) y.emission_id = none) :
    write_emission st y pol =
      ({ st with emissionParts := addLine st.emissionParts (dayOf y.timestamp) y,
                 emissionIndex := some (alSet (effEmissionIndex st) y.emission_id (dayOf y.timestamp)) },
        .ok (dayOf y.timestamp)) := by
  unfold write_emission
  rw [if_neg hid, if_neg hsv]
  simp only [hfresh]
  rfl

theorem write_signal_dup (st : FileSystemStore) (x : SignalEnvelope) (pol : String) (p : Int)
    (hid : ¬ x.signal_id = "") (hsv : ¬ x.schema_version = "")
    (hpol : pol = "ignore" ∨ pol = "return_existing")
    (hdup : alookup (effSignalIndex st) x.signal_id = some p) :
    write_signal st x pol = ({ st with signalIndex := some (effSignalIndex st) }, .ok p) := by
  have hres : resolve_duplicate (some p) pol "signal_id" x.signal_id = .ok (some p) := by
    show (if pol = "ignore" ∨ pol = "return_existing" then Except.ok (some p)
      else if pol = "raise" then Except.error (StoreError.duplicateEvent "signal_id" x.signal_id p)
      else Except.error (StoreError.valueError "Unsupported duplicate policy")) =
        Except.ok (some p)
    rw [if_pos hpol]
  unfold write_signal
  rw [if_neg hid, if_neg hsv]
  simp only [hdup, hres]

theorem write_emission_dup (st : FileSystemStore) (y : EmissionEnvelope) (pol : String) (p : Int)
    (hid : ¬ y.emission_id = "") (hsv : ¬ y.schema_version = "")
    (hpol : pol = "ignore" ∨ pol = "return_existing")
    (hdup : alookup (effEmissionIndex st) y.emission_id = some p) :
    write_emission st y pol = ({ st with emissionIndex := some (effEmissionIndex st) }, .ok p) := by
  have hres : resolve_duplicate (some p) pol "emission_id" y.emission_id = .ok (some p) := by
    show (if pol = "ignore" ∨ pol = "return_existing" then Except.ok (some p)
      else if pol = "raise" then Except.error (StoreError.duplicateEvent "emission_id" y.emission_id p)
      else Except.error (StoreError.valueError "Unsupported duplicate policy")) =
        Except.ok (some p)
    rw [if_pos hpol]
  unfold write_emission
  rw [if_neg hid, if_neg hsv]
  simp only [hdup, hres]

/-- C1: writing a valid envelope with a fresh id twice under duplicate
policy "ignore" or "return_existing" succeeds both times with the same
partition path (the envelope's UTC day), and any subsequent scan whose
canonical interval spans the envelope's timestamp and whose filters admit
the envelope observes exactly one record with that id; this holds for
`write_signal` and for `write_emission`. -/
theorem claim_C1 (st0 st0e : FileSystemStore) (x : SignalEnvelope) (y : EmissionEnvelope)
    (polS polE : String)
    (hpolS : polS = "ignore" ∨ polS = "return_existing")
    (hpolE : polE = "ignore" ∨ polE = "return_existing")
    (hid : ¬ x.signal_id = "") (hsv : ¬ x.schema_version = "")
    (hfresh : alookup (effSignalIndex st0) x.signal_id = none)
    (hide : ¬ y.emission_id = "") (hsve : ¬ y.schema_version = "")
    (hfreshe : alookup (effEmissionIndex st0e) y.emission_id = none) :
    ((write_signal st0 x polS).2 = .ok (dayOf x.timestamp) ∧
     (write_signal (write_signal st0 x polS).1 x polS).2 = .ok (dayOf x.timestamp) ∧
     ∀ (start finish : PyDatetime) (eref : Option EntityRef) (srcs : Option (List String)),
       utcSec start ≤ utcSec x.timestamp → utcSec x.timestamp ≤ utcSec finish →
       srcOk (truthyList srcs) x = true → entOkSig eref x = true →
       ∃ l, iter_signals (write_signal (write_signal st0 x polS).1 x polS).1
           start finish eref srcs = .ok l ∧
         l.countP (fun s => decide (s.signal_id = x.signal_id)) = 1) ∧
    ((write_emission st0e y polE).2 = .ok (dayOf y.timestamp) ∧
     (write_emission (write_emission st0e y polE).1 y polE).2 = .ok (dayOf y.timestamp) ∧
     ∀ (start finish : PyDatetime) (eref : Option EntityRef) (typs : Option (List String)),
       utcSec start ≤ utcSec y.timestamp → utcSec y.timestamp ≤ utcSec finish →
       typOk (truthyList typs) y = true → entOkEmi eref y = true →
       ∃ l, iter_emissions (write_emission (write_emission st0e y polE).1 y polE).1
           start finish eref typs = .ok l ∧
         l.countP (fun e => decide (e.emission_id = y.emission_id)) = 1) := by
  have h1 := write_signal_fresh st0 x polS hid hsv hfresh
  have hidx1 : effSignalIndex (write_signal st0 x polS).1 =
      alSet (effSignalIndex st0) x.signal_id (dayOf x.timestamp) := by
    rw [h1]
    rfl
  have hdup2 : alookup (effSignalIndex (write_signal st0 x polS).1) x.signal_id =
      some (dayOf x.timestamp) := by
    rw [hidx1]; exact alookup_alSet_self _ _ _
  have h2 := write_signal_dup (write_signal st0 x polS).1 x polS (dayOf x.timestamp)
    hid hsv hpolS hdup2
  have hparts : (write_signal (write_signal st0 x polS).1 x polS).1.signalParts =
      addLine st0.signalParts (dayOf x.timestamp) x := by
    rw [h2, h1]
  have h1e := write_emission_fresh st0e y polE hide hsve hfreshe
  have hidx1e : effEmissionIndex (write_emission st0e y polE).1 =
      alSet (effEmissionIndex st0e) y.emission_id (dayOf y.timestamp) := by
    rw [h1e]
    rfl
  have hdup2e : alookup (effEmissionIndex (write_emission st0e y polE).1) y.emission_id =
      some (dayOf y.timestamp) := by
    rw [hidx1e]; exact alookup_alSet_self _ _ _
  have h2e := write_emission_dup (write_emission st0e y polE).1 y polE (dayOf y.timestamp)
    hide hsve hpolE hdup2e
  have hpartse : (write_emission (write_emission st0e y polE).1 y polE).1.emissionParts =
      addLine st0e.emissionParts (dayOf y.timestamp) y := by
    rw [h2e, h1e]
  refine ⟨⟨by rw [h1], by rw [h2], ?_⟩, ⟨by rw [h1e], by rw [h2e], ?_⟩⟩
  · intro start finish eref srcs hle1 hle2 hsrc hent
    have hab : utcSec start ≤ utcSec finish := le_trans hle1 hle2
    refine ⟨_, iter_signals_ok _ start finish eref srcs hab, ?_⟩
    have hxmem : x ∈ scanCandidatesSig (write_signal (write_signal st0 x polS).1 x polS).1
        (utcSec start) (utcSec finish) := by
      unfold scanCandidatesSig
      refine List.mem_flatMap.mpr ⟨dayOf x.timestamp, ?_, ?_⟩
      · exact (mem_dayRange _ _ _).mpr ⟨fdiv_day_mono _ _ hle1, fdiv_day_mono _ _ hle2⟩
      · unfold linesAtSig
        rw [hparts]
        exact mem_getD_addLine st0.signalParts _ x
    have hpass : sigPass (utcSec start) (utcSec finish) (truthyList srcs) eref x = true := by
      simp only [sigPass, Bool.and_eq_true, decide_eq_true_eq]
      exact ⟨⟨⟨hle1, hle2⟩, hsrc⟩, hent⟩
    have hkmem : x.signal_id ∈
        (((scanCandidatesSig (write_signal (write_signal st0 x polS).1 x polS).1
          (utcSec start) (utcSec finish)).filter
            (sigPass (utcSec start) (utcSec finish) (truthyList srcs) eref)).map
          (fun s => s.signal_id)) :=
      List.mem_map.mpr ⟨x, List.mem_filter.mpr ⟨hxmem, hpass⟩, rfl⟩
    have hc := countP_dedupByAux (fun s : SignalEnvelope => s.signal_id) x.signal_id
      ((scanCandidatesSig (write_signal (write_signal st0 x polS).1 x polS).1
        (utcSec start) (utcSec finish)).filter
          (sigPass (utcSec start) (utcSec finish) (truthyList srcs) eref)) []
    rw [if_pos ⟨List.not_mem_nil _, hkmem⟩] at hc
    exact hc
  · intro start finish eref typs hle1 hle2 htyp hent
    have hab : utcSec start ≤ utcSec finish := le_trans hle1 hle2
    refine ⟨_, iter_emissions_ok _ start finish eref typs hab, ?_⟩
    have hymem : y ∈ scanCandidatesEmi (write_emission (write_emission st0e y polE).1 y polE).1
        (utcSec start) (utcSec finish) := by
      unfold scanCandidatesEmi
      refine List.mem_flatMap.mpr ⟨dayOf y.timestamp, ?_, ?_⟩
      · exact (mem_dayRange _ _ _).mpr ⟨fdiv_day_mono _ _ hle1, fdiv_day_mono _ _ hle2⟩
      · unfold linesAtEmi
        rw [hpartse]
        exact mem_getD_addLine st0e.emissionParts _ y
    have hpass : emiPass (utcSec start) (utcSec finish) (truthyList typs) eref y = true := by
      simp only [emiPass, Bool.and_eq_true, decide_eq_true_eq]
      exact ⟨⟨⟨hle1, hle2⟩, htyp⟩, hent⟩
    have hkmem : y.emission_id ∈
        (((scanCandidatesEmi (write_emission (write_emission st0e y polE).1 y polE).1
          (utcSec start) (utcSec finish)).filter
            (emiPass (utcSec start) (utcSec finish) (truthyList typs) eref)).map
          (fun e => e.emission_id)) :=
      List.mem_map.mpr ⟨y, List.mem_filter.mpr ⟨hymem, hpass⟩, rfl⟩
    have hc := countP_dedupByAux (fun e : EmissionEnvelope => e.emission_id) y.emission_id
      ((scanCandidatesEmi (write_emission (write_emission st0e y polE).1 y polE).1
        (utcSec start) (utcSec finish)).filter
          (emiPass (utcSec start) (utcSec finish) (truthyList typs) eref)) []
    rw [if_pos ⟨List.not_mem_nil _, hkmem⟩] at hc
    exact hc

/-- Concrete instantiation of C1: double-write of `sigA` (policy "ignore")
and of `emiA` (policy "return_existing") into fresh stores, scanned over
the whole epoch day. -/
theorem claim_C1_witness :
    (write_signal emptyStore sigA "ignore").2 = .ok 0 ∧
    (write_signal (write_signal emptyStore sigA "ignore").1 sigA "ignore").2 = .ok 0 ∧
    (∃ l, iter_signals (write_signal (write_signal emptyStore sigA "ignore").1 sigA "ignore").1
        { wall := 0, tz := some 0 } { wall := 86399, tz := some 0 } none none = .ok l ∧
      l.countP (fun s => decide (s.signal_id = sigA.signal_id)) = 1) ∧
    (∃ l, iter_emissions
        (write_emission (write_emission emptyStore emiA "return_existing").1 emiA
          "return_existing").1
        { wall := 0, tz := some 0 } { wall := 86399, tz := some 0 } none none = .ok l ∧
      l.countP (fun e => decide (e.emission_id = emiA.emission_id)) = 1) := by
  have h := claim_C1 emptyStore emptyStore sigA emiA "ignore" "return_existing"
    (Or.inl rfl) (Or.inr rfl) (by decide) (by decide) rfl (by decide) (by decide) rfl
  exact ⟨h.1.1, h.1.2.1,
    h.1.2.2 { wall := 0, tz := some 0 } { wall := 86399, tz := some 0 } none none
      (by decide) (by decide) rfl rfl,
    h.2.2.2 { wall := 0, tz := some 0 } { wall := 86399, tz := some 0 } none none
      (by decide) (by decide) rfl rfl⟩

theorem utcSec_ensure (d : PyDatetime) : utcSec (ensure_utc d) = utcSec d := by
  unfold utcSec ensure_utc
  cases d.tz <;> simp

theorem utcSec_mk0 (w : Int) : utcSec { wall := w, tz := some 0 } = w := by
  unfold utcSec ensure_utc
  simp

theorem iter_signals_start_congr (st : FileSystemStore) (s1 s2 finish : PyDatetime)
    (er : Option EntityRef) (ss : Option (List String)) (h : utcSec s1 = utcSec s2) :
    iter_signals st s1 finish er ss = iter_signals st s2 finish er ss := by
  unfold iter_signals
  simp only [h]

theorem iter_signals_ok_le (st : FileSystemStore) (start finish : PyDatetime)
    (er : Option EntityRef) (ss : Option (List String)) (l : List SignalEnvelope)
    (h : iter_signals st start finish er ss = .ok l) : utcSec start ≤ utcSec finish := by
  by_contra hc
  push_neg at hc
  simp only [iter_signals] at h
  rw [if_pos hc] at h
  exact Except.noConfusion h

theorem iter_from_cp_max (st : FileSystemStore) (finish : PyDatetime) (cp : ReplayCheckpoint)
    (start : PyDatetime) (eref : Option EntityRef) (srcs : Option (List String)) :
    iter_signals_from_checkpoint st finish (some cp) (some start) eref srcs =
      match iter_signals st
          { wall := max (utcSec start) (utcSec cp.last_timestamp), tz := some 0 }
          finish eref srcs with
      | .error e => .error e
      | .ok l => .ok (l.filter (fun s =>
          !(decide (utcSec s.timestamp = utcSec cp.last_timestamp) &&
            decide (s.signal_id ∈ cp.seen_ids_at_timestamp)))) := by
  have hu : utcSec (if (ensure_utc start).wall < (ensure_utc cp.last_timestamp).wall
      then ensure_utc cp.last_timestamp else ensure_utc start) =
      utcSec ({ wall := max (utcSec start) (utcSec cp.last_timestamp), tz := some 0 } :
        PyDatetime) := by
    rw [utcSec_mk0]
    by_cases hlt : (ensure_utc start).wall < (ensure_utc cp.last_timestamp).wall
    · rw [if_pos hlt, utcSec_ensure]
      have hlt2 : utcSec start < utcSec cp.last_timestamp := hlt
      rw [max_eq_right (le_of_lt hlt2)]
    · rw [if_neg hlt, utcSec_ensure]
      have hlt2 : utcSec cp.last_timestamp ≤ utcSec start := by
        have : ¬ utcSec start < utcSec cp.last_timestamp := hlt
        omega
      rw [max_eq_left hlt2]
  have hcong := iter_signals_start_congr st
    (if (ensure_utc start).wall < (ensure_utc cp.last_timestamp).wall
      then ensure_utc cp.last_timestamp else ensure_utc start)
    { wall := max (utcSec start) (utcSec cp.last_timestamp), tz := some 0 }
    finish eref srcs hu
  unfold iter_signals_from_checkpoint
  simp only [hcong]
  rfl

theorem sigPass_split (a0 a1 b : Int) (ss : Option (List String)) (er : Option EntityRef)
    (s : SignalEnvelope) (h : a0 ≤ a1) :
    sigPass a1 b ss er s = (sigPass a0 b ss er s && decide (a1 ≤ utcSec s.timestamp)) := by
  unfold sigPass
  by_cases h1 : a1 ≤ utcSec s.timestamp
  · have h0 : a0 ≤ utcSec s.timestamp := le_trans h h1
    cases hsb : decide (utcSec s.timestamp ≤ b) <;>
      cases hsrc : srcOk ss s <;>
        cases hent : entOkSig er s <;>
          simp [h1, h0, hsb, hsrc, hent]
  · simp [h1]

theorem filter_and {α : Type} (p q : α → Bool) :
    ∀ l : List α, (l.filter p).filter q = l.filter (fun a => p a && q a) := by
  intro l
  induction l with
  | nil => rfl
  | cons x rest ih =>
    cases hp : p x with
    | false =>
      rw [List.filter_cons_of_neg (by simp [hp]), ih,
        List.filter_cons_of_neg (by simp [hp])]
    | true =>
      rw [List.filter_cons_of_pos hp]
      cases hq : q x with
      | false =>
        rw [List.filter_cons_of_neg (by simp [hq]), ih,
          List.filter_cons_of_neg (by simp [hp, hq])]
      | true =>
        rw [List.filter_cons_of_pos hq, ih,
          List.filter_cons_of_pos (by simp [hp, hq])]

theorem mem_dedupByAux_id :
    ∀ (l seen : List String) (a : String),
    a ∈ dedupByAux (fun x => x) seen l ↔ a ∉ seen ∧ a ∈ l := by
  intro l
  induction l with
  | nil =>
    intro seen a
    simp [dedupByAux]
  | cons t rest ih =>
    intro seen a
    by_cases hs : t ∈ seen
    · simp only [dedupByAux, if_pos hs, ih, List.mem_cons]
      constructor
      · rintro ⟨h1, h2⟩
        exact ⟨h1, Or.inr h2⟩
      · rintro ⟨h1, h2⟩
        rcases h2 with rfl | h2
        · exact absurd hs h1
        · exact ⟨h1, h2⟩
    · simp only [dedupByAux, if_neg hs, List.mem_cons, ih]
      constructor
      · rintro (rfl | ⟨h1, h2⟩)
        · exact ⟨hs, Or.inl rfl⟩
        · exact ⟨fun hm => h1 (Or.inr hm), Or.inr h2⟩
      · rintro ⟨h1, rfl | h2⟩
        · exact Or.inl rfl
        · by_cases hat : a = t
          · exact Or.inl hat
          · refine Or.inr ⟨?_, h2⟩
            intro hm
            rcases hm with h | h
            · exact hat h
            · exact h1 h

theorem mem_dedupBy_id (l : List String) (a : String) :
    a ∈ dedupBy (fun x => x) l ↔ a ∈ l := by
  unfold dedupBy
  rw [mem_dedupByAux_id]
  simp

theorem build_signal_checkpoint_sorted :
    ∀ (sigs : List SignalEnvelope), sigs ≠ [] →
    List.Pairwise (fun x y => utcSec x.timestamp ≤ utcSec y.timestamp) sigs →
    ∃ cp, build_signal_checkpoint sigs = .ok (some cp) ∧
      cp.last_timestamp.tz = some 0 ∧
      (∀ s ∈ sigs, utcSec s.timestamp ≤ cp.last_timestamp.wall) ∧
      (∃ s ∈ sigs, utcSec s.timestamp = cp.last_timestamp.wall) ∧
      cp.seen_ids_at_timestamp = dedupBy (fun x => x)
        ((sigs.filter (fun s => decide (utcSec s.timestamp = cp.last_timestamp.wall))).map
          (fun s => s.signal_id)) ∧
      cp.schema_version = "0.1" := by
  intro sigs hne hpw
  cases sigs with
  | nil => exact absurd rfl hne
  | cons h rest =>
    rcases List.pairwise_cons.mp hpw with ⟨hhead, hpw2⟩
    have hwall : (ensure_utc h.timestamp).wall = utcSec h.timestamp := rfl
    have htz2 : (ensure_utc h.timestamp).tz = some 0 := by
      unfold ensure_utc
      cases h.timestamp.tz <;> rfl
    rcases buildAux_sorted rest (ensure_utc h.timestamp) [h.signal_id] htz2
      (by intro x hx; rw [hwall]; exact hhead x hx) hpw2 with
      ⟨M, pre, hres, hM1, hM2, hdisj⟩
    rw [hwall] at hM1
    refine ⟨mkReplayCheckpoint { wall := M, tz := some 0 }
      (pre ++ (rest.filter (fun s => decide (utcSec s.timestamp = M))).map
        (fun s => s.signal_id)) "0.1", ?_, rfl, ?_, ?_, ?_, rfl⟩
    · show build_checkpoint_aux none [] (h :: rest) = _
      rw [build_checkpoint_aux]
      exact hres
    · have hcw : (mkReplayCheckpoint { wall := M, tz := some 0 }
          (pre ++ (rest.filter (fun s => decide (utcSec s.timestamp = M))).map
            (fun s => s.signal_id)) "0.1").last_timestamp.wall = M := by
        show (ensure_utc { wall := M, tz := some 0 }).wall = M
        show M - 0 = M
        omega
      rw [hcw]
      intro s hs
      rcases List.mem_cons.mp hs with rfl | hs2
      · omega
      · exact hM2 s hs2
    · have hcw : (mkReplayCheckpoint { wall := M, tz := some 0 }
          (pre ++ (rest.filter (fun s => decide (utcSec s.timestamp = M))).map
            (fun s => s.signal_id)) "0.1").last_timestamp.wall = M := by
        show (ensure_utc { wall := M, tz := some 0 }).wall = M
        show M - 0 = M
        omega
      rw [hcw]
      rcases hdisj with ⟨hMeq, _⟩ | ⟨_, _, ⟨x, hx, hxM⟩⟩
      · exact ⟨h, List.mem_cons_self _ _, by rw [hwall] at hMeq; omega⟩
      · exact ⟨x, List.mem_cons_of_mem _ hx, hxM⟩
    · have hcw : (mkReplayCheckpoint { wall := M, tz := some 0 }
          (pre ++ (rest.filter (fun s => decide (utcSec s.timestamp = M))).map
            (fun s => s.signal_id)) "0.1").last_timestamp.wall = M := by
        show (ensure_utc { wall := M, tz := some 0 }).wall = M
        show M - 0 = M
        omega
      rw [hcw]
      show dedupBy (fun s => s)
          (pre ++ (rest.filter (fun s => decide (utcSec s.timestamp = M))).map
            (fun s => s.signal_id)) = _
      rcases hdisj with ⟨hMeq, hpre⟩ | ⟨hMlt, hpre, _⟩
      · rw [hpre]
        rw [hwall] at hMeq
        rw [List.filter_cons_of_pos (by simp [hMeq]), List.map_cons]
        rfl
      · rw [hpre]
        rw [List.filter_cons_of_neg (by rw [hwall] at hMlt; simp; omega)]
        rfl

/-- C3: `iter_signals_from_checkpoint` scans from the maximum of the
provided start (the epoch when absent; here a start is given) and the
checkpoint's canonical `last_timestamp`, dropping a scanned record iff its
canonical timestamp equals `last_timestamp` and its id is in
`seen_ids_at_timestamp`; consequently, if a full sorted scan splits into a
processed prefix and a remainder and the checkpoint is built from the
prefix, resuming yields exactly the remainder, and prefix concatenated
with remainder holds each id at most once and misses no in-interval
record. -/
theorem claim_C3 :
    (∀ (st : FileSystemStore) (finish : PyDatetime) (cp : ReplayCheckpoint)
        (start : PyDatetime) (eref : Option EntityRef) (srcs : Option (List String)),
      iter_signals_from_checkpoint st finish (some cp) (some start) eref srcs =
        match iter_signals st
            { wall := max (utcSec start) (utcSec cp.last_timestamp), tz := some 0 }
            finish eref srcs with
        | .error e => .error e
        | .ok l => .ok (l.filter (fun s =>
            !(decide (utcSec s.timestamp = utcSec cp.last_timestamp) &&
              decide (s.signal_id ∈ cp.seen_ids_at_timestamp))))) ∧
    (∀ (st : FileSystemStore) (start0 finish : PyDatetime) (eref : Option EntityRef)
        (srcs : Option (List String)) (full pre suf : List SignalEnvelope)
        (cp : ReplayCheckpoint),
      sigPartitionOk st →
      ((scanCandidatesSig st (utcSec start0) (utcSec finish)).map
        (fun s => s.signal_id)).Nodup →
      iter_signals st start0 finish eref srcs = .ok full →
      full = pre ++ suf → pre ≠ [] →
      List.Pairwise (fun x y => utcSec x.timestamp ≤ utcSec y.timestamp) full →
      build_signal_checkpoint pre = .ok (some cp) →
      iter_signals_from_checkpoint st finish (some cp) (some start0) eref srcs = .ok suf ∧
        (full.map (fun s => s.signal_id)).Nodup) := by
  constructor
  · exact fun st finish cp start eref srcs => iter_from_cp_max st finish cp start eref srcs
  · intro st start0 finish eref srcs full pre suf cp hpok hnd hscan hsplit hpre_ne hsorted hcp
    have hab : utcSec start0 ≤ utcSec finish :=
      iter_signals_ok_le st start0 finish eref srcs full hscan
    rw [iter_signals_ok st start0 finish eref srcs hab] at hscan
    injection hscan with hfull
    have hsubF0 : ((scanCandidatesSig st (utcSec start0) (utcSec finish)).filter
        (sigPass (utcSec start0) (utcSec finish) (truthyList srcs) eref)).Sublist
        (scanCandidatesSig st (utcSec start0) (utcSec finish)) := List.filter_sublist _
    have hndF0 : (((scanCandidatesSig st (utcSec start0) (utcSec finish)).filter
        (sigPass (utcSec start0) (utcSec finish) (truthyList srcs) eref)).map
          (fun s => s.signal_id)).Nodup :=
      hnd.sublist (List.Sublist.map _ hsubF0)
    have hfull2 : full = (scanCandidatesSig st (utcSec start0) (utcSec finish)).filter
        (sigPass (utcSec start0) (utcSec finish) (truthyList srcs) eref) := by
      rw [← hfull, dedupBy_of_nodup _ _ hndF0]
    rw [hsplit] at hfull2
    have hndfull : (full.map (fun s => s.signal_id)).Nodup := by
      rw [hsplit, hfull2]
      exact hndF0
    have hnd2 : ((pre ++ suf).map (fun s => s.signal_id)).Nodup := by
      rw [hfull2]
      exact hndF0
    have hPall : ∀ s ∈ pre ++ suf,
        sigPass (utcSec start0) (utcSec finish) (truthyList srcs) eref s = true := by
      intro s hs
      rw [hfull2] at hs
      exact (List.mem_filter.mp hs).2
    have hrange : ∀ s ∈ pre ++ suf,
        utcSec start0 ≤ utcSec s.timestamp ∧ utcSec s.timestamp ≤ utcSec finish := by
      intro s hs
      have hp := hPall s hs
      simp only [sigPass, Bool.and_eq_true, decide_eq_true_eq] at hp
      exact ⟨hp.1.1.1, hp.1.1.2⟩
    obtain ⟨hpw_pre, hpw_suf, hcross⟩ := List.pairwise_append.mp (by
      rw [← hsplit]; exact hsorted)
    obtain ⟨cp', hres', htz', hub', hexM, hseen', hver'⟩ :=
      build_signal_checkpoint_sorted pre hpre_ne hpw_pre
    have hcpeq : cp' = cp := by
      rw [hres'] at hcp
      simp only [Except.ok.injEq, Option.some.injEq] at hcp
      exact hcp
    subst hcpeq
    have hacp : utcSec cp'.last_timestamp = cp'.last_timestamp.wall := by
      unfold utcSec ensure_utc
      rw [htz']
      show cp'.last_timestamp.wall - 0 = cp'.last_timestamp.wall
      omega
    obtain ⟨xM, hxM_mem, hxM_eq⟩ := hexM
    have ha0M : utcSec start0 ≤ cp'.last_timestamp.wall := by
      have := (hrange xM (List.mem_append_left _ hxM_mem)).1
      omega
    have hMb : cp'.last_timestamp.wall ≤ utcSec finish := by
      have := (hrange xM (List.mem_append_left _ hxM_mem)).2
      omega
    have hsufM : ∀ y ∈ suf, cp'.last_timestamp.wall ≤ utcSec y.timestamp := by
      intro y hy
      have := hcross xM hxM_mem y hy
      omega
    refine ⟨?_, hndfull⟩
    rw [iter_from_cp_max]
    simp only [hacp]
    have hstart1 :
        utcSec ({ wall := max (utcSec start0) cp'.last_timestamp.wall, tz := some 0 } :
          PyDatetime) = cp'.last_timestamp.wall := by
      rw [utcSec_mk0]
      exact max_eq_right ha0M
    have hab1 :
        utcSec ({ wall := max (utcSec start0) cp'.last_timestamp.wall, tz := some 0 } :
          PyDatetime) ≤ utcSec finish := by
      rw [hstart1]
      exact hMb
    simp only [iter_signals_ok st
      { wall := max (utcSec start0) cp'.last_timestamp.wall, tz := some 0 }
      finish eref srcs hab1]
    simp only [hstart1, Except.ok.injEq]
    have hext := filter_scanCandidatesSig_ext st hpok (utcSec start0) cp'.last_timestamp.wall
      (utcSec finish) ha0M hMb
      (fun s => sigPass (utcSec start0) (utcSec finish) (truthyList srcs) eref s &&
        decide (cp'.last_timestamp.wall ≤ utcSec s.timestamp))
      (by
        intro s hPs
        exact of_decide_eq_true ((Bool.and_eq_true _ _).mp hPs).2)
    have hF1 : (scanCandidatesSig st cp'.last_timestamp.wall (utcSec finish)).filter
        (sigPass cp'.last_timestamp.wall (utcSec finish) (truthyList srcs) eref) =
        (pre ++ suf).filter
          (fun s => decide (cp'.last_timestamp.wall ≤ utcSec s.timestamp)) := by
      rw [List.filter_congr (fun s _ =>
        sigPass_split (utcSec start0) cp'.last_timestamp.wall (utcSec finish)
          (truthyList srcs) eref s ha0M)]
      rw [← hext, ← filter_and, ← hfull2]
    rw [hF1]
    have hpreFilter : pre.filter
        (fun s => decide (cp'.last_timestamp.wall ≤ utcSec s.timestamp)) =
        pre.filter (fun s => decide (utcSec s.timestamp = cp'.last_timestamp.wall)) := by
      refine List.filter_congr ?_
      intro s hs
      have h1 := hub' s hs
      by_cases he : utcSec s.timestamp = cp'.last_timestamp.wall
      · simp [he]
      · have h2 : ¬ cp'.last_timestamp.wall ≤ utcSec s.timestamp := by omega
        simp [he, h2]
    have hsufFilter : suf.filter
        (fun s => decide (cp'.last_timestamp.wall ≤ utcSec s.timestamp)) = suf := by
      refine List.filter_eq_self.mpr ?_
      intro s hs
      simpa using hsufM s hs
    rw [List.filter_append, hpreFilter, hsufFilter]
    have hndPS : (((pre.filter
        (fun s => decide (utcSec s.timestamp = cp'.last_timestamp.wall))) ++ suf).map
          (fun s => s.signal_id)).Nodup := by
      have hsub2 : ((pre.filter
          (fun s => decide (utcSec s.timestamp = cp'.last_timestamp.wall))) ++ suf).Sublist
          (pre ++ suf) :=
        List.Sublist.append (List.filter_sublist _) (List.Sublist.refl _)
      exact hnd2.sublist (List.Sublist.map _ hsub2)
    rw [dedupBy_of_nodup _ _ hndPS, List.filter_append]
    have hdisj : List.Disjoint (pre.map (fun s => s.signal_id))
        (suf.map (fun s => s.signal_id)) := by
      have hnd3 := hnd2
      rw [List.map_append] at hnd3
      exact List.disjoint_of_nodup_append hnd3
    have hdropPre : (pre.filter
        (fun s => decide (utcSec s.timestamp = cp'.last_timestamp.wall))).filter
          (fun s => !(decide (utcSec s.timestamp = cp'.last_timestamp.wall) &&
            decide (s.signal_id ∈ cp'.seen_ids_at_timestamp))) = [] := by
      rw [List.filter_eq_nil_iff]
      intro s hs
      have hts : utcSec s.timestamp = cp'.last_timestamp.wall :=
        of_decide_eq_true (List.mem_filter.mp hs).2
      have hid : s.signal_id ∈ cp'.seen_ids_at_timestamp := by
        rw [hseen', mem_dedupBy_id]
        exact List.mem_map.mpr ⟨s, hs, rfl⟩
      simp [hts, hid]
    have hkeepSuf : suf.filter
        (fun s => !(decide (utcSec s.timestamp = cp'.last_timestamp.wall) &&
          decide (s.signal_id ∈ cp'.seen_ids_at_timestamp))) = suf := by
      refine List.filter_eq_self.mpr ?_
      intro s hs
      by_cases hts : utcSec s.timestamp = cp'.last_timestamp.wall
      · have hid : s.signal_id ∉ cp'.seen_ids_at_timestamp := by
          rw [hseen', mem_dedupBy_id]
          intro hmem
          rcases List.mem_map.mp hmem with ⟨t, ht, hkey⟩
          have ht_pre : t ∈ pre := List.mem_of_mem_filter ht
          exact hdisj (List.mem_map.mpr ⟨t, ht_pre, hkey⟩) (List.mem_map.mpr ⟨s, hs, rfl⟩)
        simp [hts, hid]
      · simp [hts]
    rw [hdropPre, hkeepSuf, List.nil_append]

/-- Fixture store holding `sigEarly` and `sigLate` in the epoch-day
partition. -/
def storeE : FileSystemStore :=
  { signalParts := [(0, [sigEarly, sigLate])], emissionParts := [], checkpoints := []
    signalIndex := none, emissionIndex := none }

/-- Concrete instantiation of C3: after processing `[sigEarly]` and
building its checkpoint, resuming the scan yields exactly `[sigLate]`,
and the concatenated ids are pairwise distinct. -/
theorem claim_C3_witness :
    iter_signals_from_checkpoint storeE { wall := 86399, tz := some 0 }
        (some { last_timestamp := { wall := 100, tz := some 0 },
                seen_ids_at_timestamp := ["s-e"], schema_version := "0.1" })
        (some { wall := 0, tz := some 0 }) none none = .ok [sigLate] ∧
    (([sigEarly, sigLate].map (fun s => s.signal_id)).Nodup) := by
  have h := claim_C3.2 storeE { wall := 0, tz := some 0 } { wall := 86399, tz := some 0 }
    none none [sigEarly, sigLate] [sigEarly] [sigLate]
    { last_timestamp := { wall := 100, tz := some 0 },
      seen_ids_at_timestamp := ["s-e"], schema_version := "0.1" }
    (by unfold sigPartitionOk; decide) (by decide) rfl rfl (by decide) (by decide) rfl
  exact ⟨h.1, h.2⟩
